import Mathlib

/-!
Verification of the scene-to-annotation pipeline of `blender-synth`.

Shallow embedding of the algorithmic core of the repository:
* `blender_synth/annotation/yolo.py` — mask→bbox extraction and the
  normalized YOLO record computation (`_mask_to_bbox`, `bbox_to_yolo_format`);
* `blender_synth/pipeline/generator.py` — segmentation→record matching
  (`_generate_annotations_from_data`), the retry state machine
  (`_generate_single_image`, `_attempt_generate_image`, `_generate_split`),
  split sizing (`generate`), index continuation (`_get_next_index`), and
  decoding in `_visualize_single_image`;
* `blender_synth/pipeline/config.py` — the pydantic validation predicates;
* `blender_synth/objects/loader.py` — model discovery.

Machine floats are modelled by exact rationals, Python `int()` truncation by
an explicit truncation toward zero, and the 6-decimal `"%.6f"` formatting by
rounding to the nearest multiple of `10⁻⁶`.
-/

set_option autoImplicit false

namespace BlenderSynth

/-! ### Masks and bounding boxes (`yolo.py::_mask_to_bbox`)

A segmentation mask is a row-major grid of booleans (numpy 2-D array of
bool).  `np.argwhere(mask)` returns the `(y, x)` coordinates of the true
pixels, in row-major order; we reproduce it with an explicit index-carrying
recursion. -/

/-- Pixel bounding box `(x_min, y_min, x_max, y_max)`, inclusive corner
coordinates, as returned by `_mask_to_bbox`. -/
structure Bbox where
  xMin : Nat
  yMin : Nat
  xMax : Nat
  yMax : Nat
deriving Repr, DecidableEq

/-- Column indices (starting at `x0`) of the true entries of one mask row. -/
def rowTrueXs : Nat → List Bool → List Nat
  | _, [] => []
  | x0, b :: t => if b then x0 :: rowTrueXs (x0 + 1) t else rowTrueXs (x0 + 1) t

/-- `(y, x)` coordinates of the true pixels of the rows of a mask, rows
numbered from `y0`; row-major order, like `np.argwhere`. -/
def coordsFrom : Nat → List (List Bool) → List (Nat × Nat)
  | _, [] => []
  | y0, row :: t => ((rowTrueXs 0 row).map fun x => (y0, x)) ++ coordsFrom (y0 + 1) t

/-- All `(y, x)` coordinates of true pixels of a mask (`np.argwhere(mask)`). -/
def maskCoords (mask : List (List Bool)) : List (Nat × Nat) :=
  coordsFrom 0 mask

/-- Fold of `Nat.min` over a list with initial value `a`
(`coords.min(axis=0)` componentwise on a nonempty coordinate list). -/
def natsMin (a : Nat) (l : List Nat) : Nat :=
  l.foldl min a

/-- Fold of `Nat.max` over a list with initial value `a`. -/
def natsMax (a : Nat) (l : List Nat) : Nat :=
  l.foldl max a

/-- Embedding of `YOLOAnnotator._mask_to_bbox` (`yolo.py`, lines 157-180):
collect the coordinates of the true pixels; `None` on an empty mask; take
componentwise min and max; `None` if `x_max <= x_min or y_max <= y_min`;
otherwise the tight box. -/
def maskToBbox (mask : List (List Bool)) : Option Bbox :=
  match maskCoords mask with
  | [] => none
  | c :: cs =>
    let yMin := natsMin c.1 (cs.map Prod.fst)
    let xMin := natsMin c.2 (cs.map Prod.snd)
    let yMax := natsMax c.1 (cs.map Prod.fst)
    let xMax := natsMax c.2 (cs.map Prod.snd)
    if xMax ≤ xMin ∨ yMax ≤ yMin then none
    else some ⟨xMin, yMin, xMax, yMax⟩

/-! Basic facts about `rowTrueXs`, `coordsFrom`, `natsMin`, `natsMax`. -/

theorem rowTrueXs_eq_nil_iff (x0 : Nat) (row : List Bool) :
    rowTrueXs x0 row = [] ↔ ∀ b ∈ row, b = false := by
  induction row generalizing x0 with
  | nil => simp [rowTrueXs]
  | cons b t ih =>
    cases b <;> simp [rowTrueXs, ih]

theorem coordsFrom_eq_nil_iff (y0 : Nat) (m : List (List Bool)) :
    coordsFrom y0 m = [] ↔ ∀ row ∈ m, ∀ b ∈ row, b = false := by
  induction m generalizing y0 with
  | nil => simp [coordsFrom]
  | cons row t ih =>
    simp [coordsFrom, ih, rowTrueXs_eq_nil_iff]

theorem natsMin_le (a : Nat) (l : List Nat) :
    natsMin a l ≤ a ∧ ∀ b ∈ l, natsMin a l ≤ b := by
  induction l generalizing a with
  | nil => simp [natsMin]
  | cons x t ih =>
    have h := ih (min a x)
    refine ⟨le_trans h.1 (min_le_left a x), ?_⟩
    intro b hb
    rcases List.mem_cons.mp hb with rfl | hb
    · exact le_trans h.1 (min_le_right a b)
    · exact h.2 b hb

theorem le_natsMax (a : Nat) (l : List Nat) :
    a ≤ natsMax a l ∧ ∀ b ∈ l, b ≤ natsMax a l := by
  induction l generalizing a with
  | nil => simp [natsMax]
  | cons x t ih =>
    have h := ih (max a x)
    refine ⟨le_trans (le_max_left a x) h.1, ?_⟩
    intro b hb
    rcases List.mem_cons.mp hb with rfl | hb
    · exact le_trans (le_max_right a b) h.1
    · exact h.2 b hb

theorem natsMin_mem_or (a : Nat) (l : List Nat) :
    natsMin a l = a ∨ natsMin a l ∈ l := by
  induction l generalizing a with
  | nil => left; rfl
  | cons x t ih =>
    rcases ih (min a x) with h | h
    · rcases le_total a x with hax | hxa
      · left
        show natsMin (min a x) t = a
        rw [h, min_eq_left hax]
      · right
        show natsMin (min a x) t ∈ x :: t
        rw [h, min_eq_right hxa]
        exact List.mem_cons_self x t
    · right
      exact List.mem_cons_of_mem x h

theorem natsMax_mem_or (a : Nat) (l : List Nat) :
    natsMax a l = a ∨ natsMax a l ∈ l := by
  induction l generalizing a with
  | nil => left; rfl
  | cons x t ih =>
    rcases ih (max a x) with h | h
    · rcases le_total a x with hax | hxa
      · right
        show natsMax (max a x) t ∈ x :: t
        rw [h, max_eq_right hax]
        exact List.mem_cons_self x t
      · left
        show natsMax (max a x) t = a
        rw [h, max_eq_left hxa]
    · right
      exact List.mem_cons_of_mem x h

theorem maskToBbox_nil {mask : List (List Bool)} (h : maskCoords mask = []) :
    maskToBbox mask = none := by
  unfold maskToBbox
  rw [h]

theorem maskToBbox_cons {mask : List (List Bool)} {c : Nat × Nat} {cs : List (Nat × Nat)}
    (h : maskCoords mask = c :: cs) :
    maskToBbox mask =
      if natsMax c.2 (cs.map Prod.snd) ≤ natsMin c.2 (cs.map Prod.snd) ∨
         natsMax c.1 (cs.map Prod.fst) ≤ natsMin c.1 (cs.map Prod.fst) then none
      else some ⟨natsMin c.2 (cs.map Prod.snd), natsMin c.1 (cs.map Prod.fst),
                 natsMax c.2 (cs.map Prod.snd), natsMax c.1 (cs.map Prod.fst)⟩ := by
  unfold maskToBbox
  rw [h]

/-- Componentwise bounds: every coordinate of a nonempty coordinate list lies
between the folded min and the folded max of its component. -/
theorem coord_between {c : Nat × Nat} {cs : List (Nat × Nat)} {p : Nat × Nat}
    (hp : p ∈ c :: cs) :
    natsMin c.2 (cs.map Prod.snd) ≤ p.2 ∧ p.2 ≤ natsMax c.2 (cs.map Prod.snd) ∧
    natsMin c.1 (cs.map Prod.fst) ≤ p.1 ∧ p.1 ≤ natsMax c.1 (cs.map Prod.fst) := by
  rcases List.mem_cons.mp hp with heq | hp
  · subst heq
    exact ⟨(natsMin_le p.2 (cs.map Prod.snd)).1, (le_natsMax p.2 (cs.map Prod.snd)).1,
      (natsMin_le p.1 (cs.map Prod.fst)).1, (le_natsMax p.1 (cs.map Prod.fst)).1⟩
  · have h2 : p.2 ∈ cs.map Prod.snd := List.mem_map_of_mem Prod.snd hp
    have h1 : p.1 ∈ cs.map Prod.fst := List.mem_map_of_mem Prod.fst hp
    exact ⟨(natsMin_le c.2 (cs.map Prod.snd)).2 _ h2, (le_natsMax c.2 (cs.map Prod.snd)).2 _ h2,
      (natsMin_le c.1 (cs.map Prod.fst)).2 _ h1, (le_natsMax c.1 (cs.map Prod.fst)).2 _ h1⟩

/-- The folded min of the second components is attained by a member. -/
theorem natsMin_snd_attained (c : Nat × Nat) (cs : List (Nat × Nat)) :
    ∃ p ∈ c :: cs, p.2 = natsMin c.2 (cs.map Prod.snd) := by
  rcases natsMin_mem_or c.2 (cs.map Prod.snd) with h | h
  · exact ⟨c, List.mem_cons_self c cs, h.symm⟩
  · rcases List.mem_map.mp h with ⟨q, hq, hq2⟩
    exact ⟨q, List.mem_cons_of_mem c hq, hq2⟩

theorem natsMax_snd_attained (c : Nat × Nat) (cs : List (Nat × Nat)) :
    ∃ p ∈ c :: cs, p.2 = natsMax c.2 (cs.map Prod.snd) := by
  rcases natsMax_mem_or c.2 (cs.map Prod.snd) with h | h
  · exact ⟨c, List.mem_cons_self c cs, h.symm⟩
  · rcases List.mem_map.mp h with ⟨q, hq, hq2⟩
    exact ⟨q, List.mem_cons_of_mem c hq, hq2⟩

theorem natsMin_fst_attained (c : Nat × Nat) (cs : List (Nat × Nat)) :
    ∃ p ∈ c :: cs, p.1 = natsMin c.1 (cs.map Prod.fst) := by
  rcases natsMin_mem_or c.1 (cs.map Prod.fst) with h | h
  · exact ⟨c, List.mem_cons_self c cs, h.symm⟩
  · rcases List.mem_map.mp h with ⟨q, hq, hq1⟩
    exact ⟨q, List.mem_cons_of_mem c hq, hq1⟩

theorem natsMax_fst_attained (c : Nat × Nat) (cs : List (Nat × Nat)) :
    ∃ p ∈ c :: cs, p.1 = natsMax c.1 (cs.map Prod.fst) := by
  rcases natsMax_mem_or c.1 (cs.map Prod.fst) with h | h
  · exact ⟨c, List.mem_cons_self c cs, h.symm⟩
  · rcases List.mem_map.mp h with ⟨q, hq, hq1⟩
    exact ⟨q, List.mem_cons_of_mem c hq, hq1⟩

/-- **C3.** `_mask_to_bbox` returns `None` exactly when the mask has no true
pixel or the tight enclosing rectangle is degenerate — over `Nat` pixel
coordinates, `x_max <= x_min` (resp. `y_max <= y_min`) for the componentwise
min/max of a nonempty coordinate set means all true pixels share one column
(resp. one row).  Otherwise it returns the tight enclosing rectangle: a
nondegenerate box that bounds every true pixel, with each of its four sides
attained by some true pixel.  In particular a degenerate box is never
returned. -/
theorem mask_to_bbox_none_iff_degenerate_and_tight_otherwise (mask : List (List Bool)) :
    (maskToBbox mask = none ↔
      maskCoords mask = [] ∨
      (∀ p ∈ maskCoords mask, ∀ q ∈ maskCoords mask, p.2 = q.2) ∨
      (∀ p ∈ maskCoords mask, ∀ q ∈ maskCoords mask, p.1 = q.1)) ∧
    (∀ b : Bbox, maskToBbox mask = some b →
      (∀ p ∈ maskCoords mask, b.xMin ≤ p.2 ∧ p.2 ≤ b.xMax ∧ b.yMin ≤ p.1 ∧ p.1 ≤ b.yMax) ∧
      (∃ p ∈ maskCoords mask, p.2 = b.xMin) ∧
      (∃ p ∈ maskCoords mask, p.2 = b.xMax) ∧
      (∃ p ∈ maskCoords mask, p.1 = b.yMin) ∧
      (∃ p ∈ maskCoords mask, p.1 = b.yMax) ∧
      b.xMin < b.xMax ∧ b.yMin < b.yMax) := by
  constructor
  · cases hc : maskCoords mask with
    | nil =>
      simp [maskToBbox_nil hc]
    | cons c cs =>
      rw [maskToBbox_cons hc]
      constructor
      · intro hnone
        split at hnone
        · next hdeg =>
          rcases hdeg with hx | hy
          · refine Or.inr (Or.inl ?_)
            intro p hp q hq
            have hpb := coord_between hp
            have hqb := coord_between hq
            omega
          · refine Or.inr (Or.inr ?_)
            intro p hp q hq
            have hpb := coord_between hp
            have hqb := coord_between hq
            omega
        · exact absurd hnone (by simp)
      · intro hdeg
        rcases hdeg with hnil | hx | hy
        · exact absurd hnil (by simp [hc])
        · have h1 := natsMin_snd_attained c cs
          have h2 := natsMax_snd_attained c cs
          rcases h1 with ⟨p, hp, hpv⟩
          rcases h2 with ⟨q, hq, hqv⟩
          have : p.2 = q.2 := hx p hp q hq
          have heq : natsMax c.2 (cs.map Prod.snd) ≤ natsMin c.2 (cs.map Prod.snd) := by omega
          simp [heq]
        · have h1 := natsMin_fst_attained c cs
          have h2 := natsMax_fst_attained c cs
          rcases h1 with ⟨p, hp, hpv⟩
          rcases h2 with ⟨q, hq, hqv⟩
          have : p.1 = q.1 := hy p hp q hq
          have heq : natsMax c.1 (cs.map Prod.fst) ≤ natsMin c.1 (cs.map Prod.fst) := by omega
          simp [heq]
  · intro b hb
    cases hc : maskCoords mask with
    | nil => rw [maskToBbox_nil hc] at hb; cases hb
    | cons c cs =>
      rw [maskToBbox_cons hc] at hb
      split at hb
      · cases hb
      · next hdeg =>
        push_neg at hdeg
        cases hb
        refine ⟨?_, ?_, ?_, ?_, ?_, by simpa using hdeg.1, by simpa using hdeg.2⟩
        · intro p hp
          have := coord_between hp
          exact ⟨this.1, this.2.1, this.2.2.1, this.2.2.2⟩
        · simpa [hc] using natsMin_snd_attained c cs
        · simpa [hc] using natsMax_snd_attained c cs
        · simpa [hc] using natsMin_fst_attained c cs
        · simpa [hc] using natsMax_fst_attained c cs

/-! ### Normalized YOLO records (`yolo.py::bbox_to_yolo_format`) -/

/-- The four normalized geometric fields computed by `bbox_to_yolo_format`
(`yolo.py`, lines 84-113) before formatting: `width = x_max - x_min`,
`height = y_max - y_min`, `x_center = x_min + width/2`,
`y_center = y_min + height/2`, each center/extent divided by the image
width resp. height.  Machine floats are modelled by exact rationals. -/
structure YoloVals where
  xc : ℚ
  yc : ℚ
  w : ℚ
  h : ℚ
deriving Repr, DecidableEq

def yoloFields (imageWidth imageHeight : Nat) (b : Bbox) : YoloVals :=
  let width : ℚ := (b.xMax : ℚ) - (b.xMin : ℚ)
  let height : ℚ := (b.yMax : ℚ) - (b.yMin : ℚ)
  let xCenter : ℚ := (b.xMin : ℚ) + width / 2
  let yCenter : ℚ := (b.yMin : ℚ) + height / 2
  ⟨xCenter / imageWidth, yCenter / imageHeight, width / imageWidth, height / imageHeight⟩

/-- Rounding to 6 decimal places: the effect of the `"%.6f"` formatting used
when the record is written out. -/
def round6 (q : ℚ) : ℚ :=
  (round (q * 1000000) : ℚ) / 1000000

/-- One line of a label file: the class id and the four normalized fields as
printed with fixed 6-decimal precision. -/
structure YoloRec where
  classId : Nat
  xc : ℚ
  yc : ℚ
  w : ℚ
  h : ℚ
deriving Repr, DecidableEq

/-- `bbox_to_yolo_format`: compute the normalized fields and format them with
6 decimals. -/
def mkYoloRec (imageWidth imageHeight : Nat) (b : Bbox) (classId : Nat) : YoloRec :=
  let f := yoloFields imageWidth imageHeight b
  ⟨classId, round6 f.xc, round6 f.yc, round6 f.w, round6 f.h⟩

/-- Python `int()` applied to a real value: truncation toward zero. -/
def intTrunc (q : ℚ) : ℤ :=
  if 0 ≤ q then ⌊q⌋ else ⌈q⌉

/-- A decoded pixel box; corner coordinates may come out negative, hence `ℤ`. -/
structure PixBox where
  xMin : ℤ
  yMin : ℤ
  xMax : ℤ
  yMax : ℤ
deriving Repr, DecidableEq

/-- Embedding of the decoding in `_visualize_single_image` (`generator.py`,
lines 652-673): scale the four normalized fields back to pixels and obtain
corner coordinates with `int()`. -/
def decodeBox (imageWidth imageHeight : Nat) (r : YoloRec) : PixBox :=
  let xCenter := r.xc * imageWidth
  let yCenter := r.yc * imageHeight
  let boxWidth := r.w * imageWidth
  let boxHeight := r.h * imageHeight
  ⟨intTrunc (xCenter - boxWidth / 2), intTrunc (yCenter - boxHeight / 2),
   intTrunc (xCenter + boxWidth / 2), intTrunc (yCenter + boxHeight / 2)⟩

/-! ### Segmentation → records (`generator.py::_generate_annotations_from_data`) -/

/-- One tracked scene object as the orchestrator sees it after settling: its
0-based class index (custom property `class_id`) and its settled location
`(x, y, z)`. -/
structure SceneObj where
  classId : Nat
  x : ℚ
  y : ℚ
  z : ℚ
deriving Repr, DecidableEq

/-- `seg_data == instance_id`: the binary mask of one instance value. -/
def segMask (seg : List (List Nat)) (v : Nat) : List (List Bool) :=
  seg.map fun row => row.map fun p => p == v

/-- `np.unique(seg_data)` restricted to the positive values, as used by the
`instance_id not in unique_instances` check (background 0 removed). -/
def uniquePositives (seg : List (List Nat)) : List Nat :=
  ((seg.flatten).filter fun p => 0 < p).dedup

/-- `mask.any()`. -/
def maskAny (mask : List (List Bool)) : Bool :=
  mask.any fun row => row.any id

/-- Embedding of `SyntheticGenerator._generate_annotations_from_data`
(`generator.py`, lines 476-561) on the first instance segmentation map and
the tracked object list: for the object at 0-based index `idx` the expected
instance value is `idx + 2` (1 is the surface, 0 background); if that value
is absent from the map the object is skipped, else its mask is taken, and an
empty mask or a degenerate box also skips the object; otherwise the box is
converted to a normalized record carrying the object's class id.  The
count-mismatch comparison in the source only logs a warning and does not
affect the result. -/
def genRecords (imageWidth imageHeight : Nat) (seg : List (List Nat))
    (objs : List SceneObj) : List YoloRec :=
  objs.enum.filterMap fun pair =>
    let inst := pair.1 + 2
    if inst ∈ uniquePositives seg then
      let mask := segMask seg inst
      if maskAny mask then
        match maskToBbox mask with
        | none => none
        | some b => some (mkYoloRec imageWidth imageHeight b pair.2.classId)
      else none
    else none

/-- Modelled from the spec's words (§4.5 `fromSegmentation`, P4): strictly
positional matching — the object at 0-based load-order index `idx` is
matched to the segmentation region of integer value `idx + 2` and to nothing
else; a region that is absent, empty, or degenerate contributes no record
and raises no error. -/
def positionalRecords (imageWidth imageHeight : Nat) (seg : List (List Nat))
    (objs : List SceneObj) : List YoloRec :=
  objs.enum.filterMap fun pair =>
    (maskToBbox (segMask seg (pair.1 + 2))).map fun b =>
      mkYoloRec imageWidth imageHeight b pair.2.classId

theorem mem_uniquePositives {seg : List (List Nat)} {v : Nat} :
    v ∈ uniquePositives seg ↔ 0 < v ∧ ∃ row ∈ seg, v ∈ row := by
  unfold uniquePositives
  simp only [List.mem_dedup, List.mem_filter, List.mem_flatten, decide_eq_true_eq]
  tauto

theorem maskAny_eq_true_iff {mask : List (List Bool)} :
    maskAny mask = true ↔ ∃ row ∈ mask, ∃ b ∈ row, b = true := by
  unfold maskAny
  simp [List.any_eq_true]

theorem segMask_false_of_not_mem {seg : List (List Nat)} {v : Nat}
    (h : ¬ ∃ row ∈ seg, v ∈ row) :
    ∀ row ∈ segMask seg v, ∀ b ∈ row, b = false := by
  intro row hrow b hb
  rcases List.mem_map.mp hrow with ⟨r, hr, rfl⟩
  rcases List.mem_map.mp hb with ⟨p, hp, rfl⟩
  by_contra hne
  have : p = v := by
    have := Bool.of_not_eq_false hne
    exact beq_iff_eq.mp this
  exact h ⟨r, hr, this ▸ hp⟩

/-- **C1.** Instance matching is strictly positional: the records produced
by `_generate_annotations_from_data` for any segmentation map and object
list are exactly those obtained by taking, for the object at 0-based index
`idx`, the bounding box of the region of value `idx + 2` (1 being the
surface, 0 background) — never a search by area, color, or any other
heuristic; an object whose value `idx + 2` is absent from the map
contributes no record, and the function is total (no error is raised). -/
theorem records_match_strictly_by_index (imageWidth imageHeight : Nat)
    (seg : List (List Nat)) (objs : List SceneObj) :
    genRecords imageWidth imageHeight seg objs =
      positionalRecords imageWidth imageHeight seg objs := by
  unfold genRecords positionalRecords
  apply List.filterMap_congr
  intro pair _
  by_cases hmem : pair.1 + 2 ∈ uniquePositives seg
  · have hex : ∃ row ∈ seg, pair.1 + 2 ∈ row := (mem_uniquePositives.mp hmem).2
    have hany : maskAny (segMask seg (pair.1 + 2)) = true := by
      rcases hex with ⟨row, hrow, hp⟩
      refine maskAny_eq_true_iff.mpr ⟨row.map fun p => p == pair.1 + 2,
        List.mem_map_of_mem _ hrow, true, ?_, rfl⟩
      have : ((pair.1 + 2 : Nat) == pair.1 + 2) = true := beq_self_eq_true _
      exact this ▸ List.mem_map_of_mem (fun p => p == pair.1 + 2) hp
    simp only [hmem, if_true, hany]
    cases maskToBbox (segMask seg (pair.1 + 2)) <;> simp
  · have hnone : maskToBbox (segMask seg (pair.1 + 2)) = none := by
      apply maskToBbox_nil
      rw [maskCoords, coordsFrom_eq_nil_iff]
      apply segMask_false_of_not_mem
      intro hex
      exact hmem (mem_uniquePositives.mpr ⟨Nat.succ_pos _, hex⟩)
    simp [hmem, hnone]

/-! ### Coordinate bounds inside the image -/

theorem mem_rowTrueXs_bound {x x0 : Nat} {row : List Bool}
    (h : x ∈ rowTrueXs x0 row) : x0 ≤ x ∧ x < x0 + row.length := by
  induction row generalizing x0 with
  | nil => cases h
  | cons b t ih =>
    by_cases hb : b = true
    · subst hb
      simp only [rowTrueXs, if_true] at h
      rcases List.mem_cons.mp h with rfl | h
      · simp
      · have := ih h
        constructor <;> [omega; (simp only [List.length_cons]; omega)]
    · have hb' : b = false := by revert hb; cases b <;> simp
      subst hb'
      simp only [rowTrueXs, if_neg (by simp : ¬ (false = true))] at h
      have := ih h
      constructor <;> [omega; (simp only [List.length_cons]; omega)]

theorem mem_coordsFrom_bound {p : Nat × Nat} {y0 : Nat} {m : List (List Bool)}
    (h : p ∈ coordsFrom y0 m) :
    y0 ≤ p.1 ∧ p.1 < y0 + m.length ∧ ∃ row ∈ m, p.2 < row.length := by
  induction m generalizing y0 with
  | nil => cases h
  | cons row t ih =>
    rcases List.mem_append.mp h with h | h
    · rcases List.mem_map.mp h with ⟨x, hx, rfl⟩
      have := mem_rowTrueXs_bound hx
      refine ⟨Nat.le_refl _, by simp only [List.length_cons]; omega,
        row, List.mem_cons_self row t, by omega⟩
    · obtain ⟨h1, h2, row', hrow', h3⟩ := ih h
      exact ⟨by omega, by simp only [List.length_cons]; omega,
        row', List.mem_cons_of_mem row hrow', h3⟩

/-- If `_mask_to_bbox` returns a box, the box's coordinates come from true
pixels of the mask, hence are bounded by the mask's dimensions. -/
theorem maskToBbox_some_bounds {mask : List (List Bool)} {b : Bbox}
    (hb : maskToBbox mask = some b)
    {imageWidth imageHeight : Nat}
    (hH : mask.length = imageHeight)
    (hW : ∀ row ∈ mask, row.length = imageWidth) :
    b.xMin ≤ b.xMax ∧ b.yMin ≤ b.yMax ∧
    b.xMax < imageWidth ∧ b.yMax < imageHeight ∧
    b.xMin < b.xMax ∧ b.yMin < b.yMax := by
  cases hc : maskCoords mask with
  | nil => rw [maskToBbox_nil hc] at hb; cases hb
  | cons c cs =>
    rw [maskToBbox_cons hc] at hb
    split at hb
    · cases hb
    · next hdeg =>
      push_neg at hdeg
      cases hb
      have hxmax := natsMax_snd_attained c cs
      have hymax := natsMax_fst_attained c cs
      rcases hxmax with ⟨p, hp, hpv⟩
      rcases hymax with ⟨q, hq, hqv⟩
      have hpm : p ∈ coordsFrom 0 mask := by
        rw [show coordsFrom 0 mask = maskCoords mask from rfl, hc]; exact hp
      have hqm : q ∈ coordsFrom 0 mask := by
        rw [show coordsFrom 0 mask = maskCoords mask from rfl, hc]; exact hq
      obtain ⟨-, -, rowp, hrowp, hplt⟩ := mem_coordsFrom_bound hpm
      obtain ⟨-, hqy, -⟩ := mem_coordsFrom_bound hqm
      have hxW : p.2 < imageWidth := by rw [← hW rowp hrowp]; exact hplt
      have hyH : q.1 < imageHeight := by rw [← hH]; omega
      have hpb := coord_between hp
      have hqb := coord_between hq
      refine ⟨?_, ?_, ?_, ?_, ?_, ?_⟩
      · show natsMin c.2 (cs.map Prod.snd) ≤ natsMax c.2 (cs.map Prod.snd)
        omega
      · show natsMin c.1 (cs.map Prod.fst) ≤ natsMax c.1 (cs.map Prod.fst)
        omega
      · show natsMax c.2 (cs.map Prod.snd) < imageWidth
        omega
      · show natsMax c.1 (cs.map Prod.fst) < imageHeight
        omega
      · show natsMin c.2 (cs.map Prod.snd) < natsMax c.2 (cs.map Prod.snd)
        exact hdeg.1
      · show natsMin c.1 (cs.map Prod.fst) < natsMax c.1 (cs.map Prod.fst)
        exact hdeg.2

/-- **C10.** For a box extracted from a mask of an image of size `(W, H)`,
the computed normalized width is `(x_max - x_min)/W` and the normalized
height is `(y_max - y_min)/H` — one less than the count of covered mask
columns resp. rows, divided by the image dimension, since the tight box uses
inclusive max pixel coordinates — and, the coordinates being bounded by
`W - 1` and `H - 1`, all four normalized fields are strictly below 1. -/
theorem normalized_fields_eq_and_lt_one (imageWidth imageHeight : Nat)
    (mask : List (List Bool)) (b : Bbox)
    (hH : mask.length = imageHeight)
    (hW : ∀ row ∈ mask, row.length = imageWidth)
    (hb : maskToBbox mask = some b) :
    (yoloFields imageWidth imageHeight b).w = ((b.xMax : ℚ) - b.xMin) / imageWidth ∧
    (yoloFields imageWidth imageHeight b).h = ((b.yMax : ℚ) - b.yMin) / imageHeight ∧
    (yoloFields imageWidth imageHeight b).w
      = (((b.xMax - b.xMin + 1 : Nat) : ℚ) - 1) / imageWidth ∧
    (yoloFields imageWidth imageHeight b).h
      = (((b.yMax - b.yMin + 1 : Nat) : ℚ) - 1) / imageHeight ∧
    (yoloFields imageWidth imageHeight b).xc < 1 ∧
    (yoloFields imageWidth imageHeight b).yc < 1 ∧
    (yoloFields imageWidth imageHeight b).w < 1 ∧
    (yoloFields imageWidth imageHeight b).h < 1 := by
  obtain ⟨hle1, hle2, hxlt, hylt, -, -⟩ := maskToBbox_some_bounds hb hH hW
  have hW0 : 0 < imageWidth := by omega
  have hH0 : 0 < imageHeight := by omega
  have hWq : (0 : ℚ) < imageWidth := by exact_mod_cast hW0
  have hHq : (0 : ℚ) < imageHeight := by exact_mod_cast hH0
  have hxq : (b.xMax : ℚ) ≤ (imageWidth : ℚ) - 1 := by
    have : (b.xMax : ℚ) + 1 ≤ imageWidth := by exact_mod_cast hxlt
    linarith
  have hyq : (b.yMax : ℚ) ≤ (imageHeight : ℚ) - 1 := by
    have : (b.yMax : ℚ) + 1 ≤ imageHeight := by exact_mod_cast hylt
    linarith
  have haq : (b.xMin : ℚ) ≤ b.xMax := by exact_mod_cast hle1
  have hbq : (b.yMin : ℚ) ≤ b.yMax := by exact_mod_cast hle2
  have ha0 : (0 : ℚ) ≤ b.xMin := by positivity
  have hb0 : (0 : ℚ) ≤ b.yMin := by positivity
  refine ⟨rfl, rfl, ?_, ?_, ?_, ?_, ?_, ?_⟩
  · show ((b.xMax : ℚ) - b.xMin) / imageWidth = _
    congr 1
    push_cast [Nat.sub_add_cancel, hle1]
    ring
  · show ((b.yMax : ℚ) - b.yMin) / imageHeight = _
    congr 1
    push_cast [Nat.sub_add_cancel, hle2]
    ring
  · show ((b.xMin : ℚ) + ((b.xMax : ℚ) - b.xMin) / 2) / imageWidth < 1
    rw [div_lt_one hWq]
    linarith
  · show ((b.yMin : ℚ) + ((b.yMax : ℚ) - b.yMin) / 2) / imageHeight < 1
    rw [div_lt_one hHq]
    linarith
  · show ((b.xMax : ℚ) - b.xMin) / imageWidth < 1
    rw [div_lt_one hWq]
    linarith
  · show ((b.yMax : ℚ) - b.yMin) / imageHeight < 1
    rw [div_lt_one hHq]
    linarith

/-- Witness for C10 at a concrete mask: the 2×2 mask with true pixels on the
diagonal yields the box `(0,0,1,1)` and normalized fields `1/2 < 1`. -/
theorem normalized_fields_eq_and_lt_one_witness :
    maskToBbox [[true, false], [false, true]] = some ⟨0, 0, 1, 1⟩ ∧
    (yoloFields 2 2 ⟨0, 0, 1, 1⟩).w = ((1 : ℚ) - 0) / 2 ∧
    (yoloFields 2 2 ⟨0, 0, 1, 1⟩).xc < 1 := by
  have h := normalized_fields_eq_and_lt_one 2 2 [[true, false], [false, true]]
    ⟨0, 0, 1, 1⟩ rfl (by decide) (by decide)
  refine ⟨by decide, ?_, h.2.2.2.2.1⟩
  have := h.1
  simpa using this

/-! ### Round-trip error of encode/decode (C4) -/

theorem abs_round6_sub (q : ℚ) : |round6 q - q| ≤ 1 / 2000000 := by
  unfold round6
  have h := abs_sub_round (q * 1000000)
  rw [abs_sub_comm] at h
  have heq : (round (q * 1000000) : ℚ) / 1000000 - q
      = ((round (q * 1000000) : ℚ) - q * 1000000) / 1000000 := by ring
  rw [heq, abs_div, abs_of_pos (by norm_num : (0 : ℚ) < 1000000)]
  rw [div_le_div_iff₀ (by norm_num) (by norm_num)]
  nlinarith [h]

/-- Decoding error before truncation: scaling two 6-decimal-rounded
normalized fields back by a dimension `Wq ≤ 10⁶` and combining them with a
coefficient of absolute value at most `1/2` moves the exact value by less
than one pixel. -/
theorem round6_scale_near (p q s n Wq : ℚ) (hW0 : 0 ≤ Wq) (hWle : Wq ≤ 1000000)
    (hs : |s| ≤ 1 / 2) (hexact : p * Wq + s * (q * Wq) = n) :
    |round6 p * Wq + s * (round6 q * Wq) - n| < 1 := by
  have h1 := abs_round6_sub p
  have h2 := abs_round6_sub q
  have key : round6 p * Wq + s * (round6 q * Wq) - n
      = (round6 p - p) * Wq + s * ((round6 q - q) * Wq) := by
    rw [← hexact]; ring
  rw [key]
  have t1 : |(round6 p - p) * Wq| ≤ (1 / 2000000) * Wq := by
    rw [abs_mul, abs_of_nonneg hW0]
    exact mul_le_mul_of_nonneg_right h1 hW0
  have t2 : |s * ((round6 q - q) * Wq)| ≤ (1 / 2) * ((1 / 2000000) * Wq) := by
    rw [abs_mul, abs_mul, abs_of_nonneg hW0]
    have hq : |round6 q - q| * Wq ≤ (1 / 2000000) * Wq :=
      mul_le_mul_of_nonneg_right h2 hW0
    have habs0 : (0 : ℚ) ≤ |round6 q - q| * Wq := by positivity
    calc |s| * (|round6 q - q| * Wq) ≤ (1 / 2) * (|round6 q - q| * Wq) :=
          mul_le_mul_of_nonneg_right hs habs0
      _ ≤ (1 / 2) * ((1 / 2000000) * Wq) := by linarith
  calc |(round6 p - p) * Wq + s * ((round6 q - q) * Wq)|
      ≤ |(round6 p - p) * Wq| + |s * ((round6 q - q) * Wq)| := abs_add _ _
    _ ≤ (1 / 2000000) * Wq + (1 / 2) * ((1 / 2000000) * Wq) := by linarith
    _ = (3 / 4) * (Wq / 1000000) := by ring
    _ ≤ 3 / 4 := by
        have : Wq / 1000000 ≤ 1 := by
          rw [div_le_one (by norm_num : (0 : ℚ) < 1000000)]; exact hWle
        nlinarith
    _ < 1 := by norm_num

/-- `int()` truncation of a value within one of a natural number lands within
one of that number. -/
theorem intTrunc_near (n : Nat) (v : ℚ) (h : |v - (n : ℚ)| < 1) :
    |(intTrunc v : ℚ) - (n : ℚ)| ≤ 1 := by
  rw [abs_lt] at h
  unfold intTrunc
  split
  · next hv =>
    have hup : ⌊v⌋ ≤ (n : ℤ) := by
      have : v < (((n : ℤ) + 1 : ℤ) : ℚ) := by push_cast; linarith
      have := Int.floor_lt.mpr this
      omega
    have hlow : (n : ℤ) - 1 ≤ ⌊v⌋ := by
      have hfl := Int.lt_floor_add_one v
      have : ((n : ℤ) - 2 : ℚ) < ((⌊v⌋ : ℤ) : ℚ) := by push_cast; linarith
      have hcast : ((n : ℤ) - 2 : ℤ) < ⌊v⌋ := by exact_mod_cast this
      omega
    have hupq : ((⌊v⌋ : ℤ) : ℚ) ≤ (n : ℚ) := by exact_mod_cast hup
    have hlowq : ((n : ℚ) - 1) ≤ ((⌊v⌋ : ℤ) : ℚ) := by
      have : (((n : ℤ) - 1 : ℤ) : ℚ) ≤ ((⌊v⌋ : ℤ) : ℚ) := by exact_mod_cast hlow
      push_cast at this; linarith
    rw [abs_le]
    constructor <;> linarith
  · next hv =>
    push_neg at hv
    have hn0 : n = 0 := by
      by_contra hne
      have h1 : (1 : ℚ) ≤ (n : ℚ) := by exact_mod_cast Nat.one_le_iff_ne_zero.mpr hne
      linarith
    subst hn0
    have hc1 : ⌈v⌉ ≤ 0 := Int.ceil_le.mpr (by exact_mod_cast hv.le)
    have hc2 : (0 : ℤ) ≤ ⌈v⌉ := by
      have hle := Int.le_ceil v
      have : (-1 : ℚ) < ((⌈v⌉ : ℤ) : ℚ) := by
        simp only [Nat.cast_zero] at h
        linarith
      have hcast : (-1 : ℤ) < ⌈v⌉ := by exact_mod_cast this
      omega
    have : ⌈v⌉ = 0 := by omega
    rw [this]
    norm_num

/-- Evaluation rule for `intTrunc` on a nonnegative value with known integer
bounds. -/
theorem intTrunc_eq_of_bounds (v : ℚ) (n : ℤ) (h0 : 0 ≤ v) (hl : (n : ℚ) ≤ v)
    (hu : v < n + 1) : intTrunc v = n := by
  unfold intTrunc
  rw [if_pos h0]
  exact Int.floor_eq_iff.mpr ⟨hl, by exact_mod_cast hu⟩

/-- **C4 (amended).** For a nondegenerate box inside an image of size
`(W, H)` with both dimensions at most `10⁶`, encoding to the normalized
6-decimal YOLO record (`bbox_to_yolo_format`) and decoding back to pixel
corners (`_visualize_single_image`) recovers each corner within ONE pixel.
Half-pixel recovery fails: the decoder truncates with `int()`, so the
6-decimal rounding can shift a corner to the adjacent pixel (see the
counterexample theorem). -/
theorem bbox_round_trip_within_one_pixel (imageWidth imageHeight : Nat) (b : Bbox)
    (classId : Nat)
    (hx : b.xMin < b.xMax) (hy : b.yMin < b.yMax)
    (hxW : b.xMax < imageWidth) (hyH : b.yMax < imageHeight)
    (hWle : imageWidth ≤ 1000000) (hHle : imageHeight ≤ 1000000) :
    |((decodeBox imageWidth imageHeight (mkYoloRec imageWidth imageHeight b classId)).xMin : ℚ)
        - (b.xMin : ℚ)| ≤ 1 ∧
    |((decodeBox imageWidth imageHeight (mkYoloRec imageWidth imageHeight b classId)).yMin : ℚ)
        - (b.yMin : ℚ)| ≤ 1 ∧
    |((decodeBox imageWidth imageHeight (mkYoloRec imageWidth imageHeight b classId)).xMax : ℚ)
        - (b.xMax : ℚ)| ≤ 1 ∧
    |((decodeBox imageWidth imageHeight (mkYoloRec imageWidth imageHeight b classId)).yMax : ℚ)
        - (b.yMax : ℚ)| ≤ 1 := by
  have hW0 : (0 : ℚ) ≤ (imageWidth : ℚ) := by positivity
  have hH0 : (0 : ℚ) ≤ (imageHeight : ℚ) := by positivity
  have hWpos : (0 : ℚ) < (imageWidth : ℚ) := by
    have : 0 < imageWidth := by omega
    exact_mod_cast this
  have hHpos : (0 : ℚ) < (imageHeight : ℚ) := by
    have : 0 < imageHeight := by omega
    exact_mod_cast this
  have hWle' : (imageWidth : ℚ) ≤ 1000000 := by exact_mod_cast hWle
  have hHle' : (imageHeight : ℚ) ≤ 1000000 := by exact_mod_cast hHle
  have hsneg : |(-(1 / 2) : ℚ)| ≤ 1 / 2 := by
    rw [abs_neg, abs_of_nonneg (by norm_num : (0 : ℚ) ≤ 1 / 2)]
  have hspos : |((1 / 2) : ℚ)| ≤ 1 / 2 := by
    rw [abs_of_nonneg (by norm_num : (0 : ℚ) ≤ 1 / 2)]
  have hexMin : (yoloFields imageWidth imageHeight b).xc * (imageWidth : ℚ)
      + (-(1 / 2)) * ((yoloFields imageWidth imageHeight b).w * (imageWidth : ℚ))
      = (b.xMin : ℚ) := by
    simp only [yoloFields]
    field_simp
    ring
  have hexMax : (yoloFields imageWidth imageHeight b).xc * (imageWidth : ℚ)
      + (1 / 2) * ((yoloFields imageWidth imageHeight b).w * (imageWidth : ℚ))
      = (b.xMax : ℚ) := by
    simp only [yoloFields]
    field_simp
    ring
  have heyMin : (yoloFields imageWidth imageHeight b).yc * (imageHeight : ℚ)
      + (-(1 / 2)) * ((yoloFields imageWidth imageHeight b).h * (imageHeight : ℚ))
      = (b.yMin : ℚ) := by
    simp only [yoloFields]
    field_simp
    ring
  have heyMax : (yoloFields imageWidth imageHeight b).yc * (imageHeight : ℚ)
      + (1 / 2) * ((yoloFields imageWidth imageHeight b).h * (imageHeight : ℚ))
      = (b.yMax : ℚ) := by
    simp only [yoloFields]
    field_simp
    ring
  refine ⟨?_, ?_, ?_, ?_⟩
  · show |(intTrunc (round6 (yoloFields imageWidth imageHeight b).xc * (imageWidth : ℚ)
      - round6 (yoloFields imageWidth imageHeight b).w * (imageWidth : ℚ) / 2) : ℚ)
      - (b.xMin : ℚ)| ≤ 1
    apply intTrunc_near
    have h := round6_scale_near (yoloFields imageWidth imageHeight b).xc
      (yoloFields imageWidth imageHeight b).w (-(1 / 2)) (b.xMin : ℚ) (imageWidth : ℚ)
      hW0 hWle' hsneg hexMin
    have heq : round6 (yoloFields imageWidth imageHeight b).xc * (imageWidth : ℚ)
        - round6 (yoloFields imageWidth imageHeight b).w * (imageWidth : ℚ) / 2
        = round6 (yoloFields imageWidth imageHeight b).xc * (imageWidth : ℚ)
          + (-(1 / 2)) * (round6 (yoloFields imageWidth imageHeight b).w * (imageWidth : ℚ)) := by
      ring
    rw [heq]
    exact h
  · show |(intTrunc (round6 (yoloFields imageWidth imageHeight b).yc * (imageHeight : ℚ)
      - round6 (yoloFields imageWidth imageHeight b).h * (imageHeight : ℚ) / 2) : ℚ)
      - (b.yMin : ℚ)| ≤ 1
    apply intTrunc_near
    have h := round6_scale_near (yoloFields imageWidth imageHeight b).yc
      (yoloFields imageWidth imageHeight b).h (-(1 / 2)) (b.yMin : ℚ) (imageHeight : ℚ)
      hH0 hHle' hsneg heyMin
    have heq : round6 (yoloFields imageWidth imageHeight b).yc * (imageHeight : ℚ)
        - round6 (yoloFields imageWidth imageHeight b).h * (imageHeight : ℚ) / 2
        = round6 (yoloFields imageWidth imageHeight b).yc * (imageHeight : ℚ)
          + (-(1 / 2)) * (round6 (yoloFields imageWidth imageHeight b).h * (imageHeight : ℚ)) := by
      ring
    rw [heq]
    exact h
  · show |(intTrunc (round6 (yoloFields imageWidth imageHeight b).xc * (imageWidth : ℚ)
      + round6 (yoloFields imageWidth imageHeight b).w * (imageWidth : ℚ) / 2) : ℚ)
      - (b.xMax : ℚ)| ≤ 1
    apply intTrunc_near
    have h := round6_scale_near (yoloFields imageWidth imageHeight b).xc
      (yoloFields imageWidth imageHeight b).w (1 / 2) (b.xMax : ℚ) (imageWidth : ℚ)
      hW0 hWle' hspos hexMax
    have heq : round6 (yoloFields imageWidth imageHeight b).xc * (imageWidth : ℚ)
        + round6 (yoloFields imageWidth imageHeight b).w * (imageWidth : ℚ) / 2
        = round6 (yoloFields imageWidth imageHeight b).xc * (imageWidth : ℚ)
          + (1 / 2) * (round6 (yoloFields imageWidth imageHeight b).w * (imageWidth : ℚ)) := by
      ring
    rw [heq]
    exact h
  · show |(intTrunc (round6 (yoloFields imageWidth imageHeight b).yc * (imageHeight : ℚ)
      + round6 (yoloFields imageWidth imageHeight b).h * (imageHeight : ℚ) / 2) : ℚ)
      - (b.yMax : ℚ)| ≤ 1
    apply intTrunc_near
    have h := round6_scale_near (yoloFields imageWidth imageHeight b).yc
      (yoloFields imageWidth imageHeight b).h (1 / 2) (b.yMax : ℚ) (imageHeight : ℚ)
      hH0 hHle' hspos heyMax
    have heq : round6 (yoloFields imageWidth imageHeight b).yc * (imageHeight : ℚ)
        + round6 (yoloFields imageWidth imageHeight b).h * (imageHeight : ℚ) / 2
        = round6 (yoloFields imageWidth imageHeight b).yc * (imageHeight : ℚ)
          + (1 / 2) * (round6 (yoloFields imageWidth imageHeight b).h * (imageHeight : ℚ)) := by
      ring
    rw [heq]
    exact h

/-- **C4 (counterexample).** In a 7×7 image the nondegenerate box
`(1, 1, 3, 3)` encodes to normalized fields `0.285714` (6-decimal rounding
of `2/7`) and decodes to `(0, 0, 2, 2)`: the decoded `x_min` is a full pixel
away from the original `x_min = 1`, so recovery within half a pixel fails. -/
theorem bbox_round_trip_half_pixel_cex :
    ((⟨1, 1, 3, 3⟩ : Bbox).xMin < (⟨1, 1, 3, 3⟩ : Bbox).xMax ∧
     (⟨1, 1, 3, 3⟩ : Bbox).yMin < (⟨1, 1, 3, 3⟩ : Bbox).yMax ∧
     (⟨1, 1, 3, 3⟩ : Bbox).xMax < 7 ∧ (⟨1, 1, 3, 3⟩ : Bbox).yMax < 7) ∧
    decodeBox 7 7 (mkYoloRec 7 7 ⟨1, 1, 3, 3⟩ 0) = ⟨0, 0, 2, 2⟩ ∧
    ¬ |((decodeBox 7 7 (mkYoloRec 7 7 ⟨1, 1, 3, 3⟩ 0)).xMin : ℚ)
        - ((⟨1, 1, 3, 3⟩ : Bbox).xMin : ℚ)| ≤ 1 / 2 := by
  have hf : yoloFields 7 7 ⟨1, 1, 3, 3⟩ = ⟨2 / 7, 2 / 7, 2 / 7, 2 / 7⟩ := by
    simp only [yoloFields, YoloVals.mk.injEq]
    norm_num
  have h6 : round6 (2 / 7 : ℚ) = 142857 / 500000 := by
    unfold round6
    rw [round_eq]
    have harg : (2 / 7 : ℚ) * 1000000 + 1 / 2 = 4000007 / 14 := by norm_num
    rw [harg]
    have hfl : ⌊(4000007 / 14 : ℚ)⌋ = 285714 := by
      rw [Int.floor_eq_iff]
      constructor <;> norm_num
    rw [hfl]
    norm_num
  have hrec : mkYoloRec 7 7 ⟨1, 1, 3, 3⟩ 0
      = ⟨0, 142857 / 500000, 142857 / 500000, 142857 / 500000, 142857 / 500000⟩ := by
    simp only [mkYoloRec, hf, h6]
  have hdec : decodeBox 7 7
      (⟨0, 142857 / 500000, 142857 / 500000, 142857 / 500000, 142857 / 500000⟩ : YoloRec)
      = ⟨0, 0, 2, 2⟩ := by
    simp only [decodeBox, PixBox.mk.injEq]
    refine ⟨?_, ?_, ?_, ?_⟩ <;>
      refine intTrunc_eq_of_bounds _ _ (by push_cast; norm_num) (by push_cast; norm_num)
        (by push_cast; norm_num)
  have hfull : decodeBox 7 7 (mkYoloRec 7 7 ⟨1, 1, 3, 3⟩ 0) = ⟨0, 0, 2, 2⟩ := by
    rw [hrec, hdec]
  refine ⟨by decide, hfull, ?_⟩
  intro h
  rw [hfull] at h
  have h2 : |((0 : ℤ) : ℚ) - ((1 : Nat) : ℚ)| ≤ 1 / 2 := h
  norm_num at h2

/-- Witness for the amended C4 at `W = H = 10` and box `(1, 1, 3, 3)`. -/
theorem bbox_round_trip_within_one_pixel_witness :
    ((⟨1, 1, 3, 3⟩ : Bbox).xMin < (⟨1, 1, 3, 3⟩ : Bbox).xMax ∧
     (⟨1, 1, 3, 3⟩ : Bbox).yMin < (⟨1, 1, 3, 3⟩ : Bbox).yMax ∧
     (⟨1, 1, 3, 3⟩ : Bbox).xMax < 10 ∧ (⟨1, 1, 3, 3⟩ : Bbox).yMax < 10 ∧
     (10 : Nat) ≤ 1000000) ∧
    |((decodeBox 10 10 (mkYoloRec 10 10 ⟨1, 1, 3, 3⟩ 0)).xMin : ℚ)
        - ((⟨1, 1, 3, 3⟩ : Bbox).xMin : ℚ)| ≤ 1 :=
  ⟨by decide,
   (bbox_round_trip_within_one_pixel 10 10 ⟨1, 1, 3, 3⟩ 0 (by decide) (by decide)
     (by decide) (by decide) (by decide) (by decide)).1⟩

/-- Witness for C3 at a concrete mask: the 2×2 diagonal mask produces the
nondegenerate tight box `(0, 0, 1, 1)`. -/
theorem mask_to_bbox_none_iff_degenerate_witness :
    maskToBbox [[true, false], [false, true]] = some ⟨0, 0, 1, 1⟩ ∧
    (⟨0, 0, 1, 1⟩ : Bbox).xMin < (⟨0, 0, 1, 1⟩ : Bbox).xMax ∧
    (⟨0, 0, 1, 1⟩ : Bbox).yMin < (⟨0, 0, 1, 1⟩ : Bbox).yMax := by
  have h := (mask_to_bbox_none_iff_degenerate_and_tight_otherwise
    [[true, false], [false, true]]).2 ⟨0, 0, 1, 1⟩ (by decide)
  exact ⟨by decide, h.2.2.2.2.2.1, h.2.2.2.2.2.2⟩

/-! ### Post-settle validation and the retry state machine
(`generator.py::_attempt_generate_image`, `_generate_single_image`,
`_generate_split`) -/

/-- The validity test of `_attempt_generate_image` (`generator.py`, lines
375-390): an object is kept iff
`loc[2] > 0 and abs(loc[0]) < 1.0 and abs(loc[1]) < 1.0`. -/
def isValidObj (o : SceneObj) : Bool :=
  decide (0 < o.z) && decide (|o.x| < 1) && decide (|o.y| < 1)

/-- The per-attempt inputs drawn afresh from the engine: the settled object
list (after `drop_objects`) and the instance segmentation map a render would
produce.  Everything the engine contributes to one attempt. -/
structure AttemptEnv where
  objs : List SceneObj
  seg : List (List Nat)

/-- Result of one attempt: whether it succeeded, whether the render call was
reached, and the records computed from the segmentation. -/
structure AttemptTrace where
  success : Bool
  renderDone : Bool
  recs : List YoloRec
deriving Repr, DecidableEq

/-- Embedding of `_attempt_generate_image` (`generator.py`, lines 342-474):
filter the settled objects by the position rule (invalid ones are deleted
from the scene); if none remain, return failure before the lighting, camera
and render calls; otherwise render and compute the records over the map and
the surviving objects; zero records is a failure; on success the image and
the label file are written. -/
def runAttempt (imageWidth imageHeight : Nat) (env : AttemptEnv) : AttemptTrace :=
  let valid := env.objs.filter isValidObj
  if valid.isEmpty then ⟨false, false, []⟩
  else
    let recs := genRecords imageWidth imageHeight env.seg valid
    if recs.isEmpty then ⟨false, true, recs⟩
    else ⟨true, true, recs⟩

/-- Outcome of `_generate_single_image` for one image index: either the two
files were written after some attempts, or the index was skipped after the
budget ran out.  There is no raising constructor: the loop catches each
attempt's exception and the exhaustion path only logs. -/
inductive ImageOutcome where
  | written (files : List String) (attemptsUsed : Nat)
  | skipped (attemptsUsed : Nat)
deriving Repr, DecidableEq

/-- Files persisted for one image index. -/
def outcomeFiles : ImageOutcome → List String
  | .written fs _ => fs
  | .skipped _ => []

/-- The retry loop of `_generate_single_image` (`generator.py`, lines
321-340), counting attempts made in `k` with `remaining` attempts left.  An
attempt whose environment is `none` models an exception raised inside the
attempt and caught by the `except` clause. -/
def genLoop (imageWidth imageHeight : Nat) (name : String)
    (envs : Nat → Option AttemptEnv) : Nat → Nat → ImageOutcome
  | k, 0 => .skipped k
  | k, remaining + 1 =>
    match envs k with
    | none => genLoop imageWidth imageHeight name envs (k + 1) remaining
    | some env =>
      if (runAttempt imageWidth imageHeight env).success then
        .written [name ++ ".jpg", name ++ ".txt"] (k + 1)
      else genLoop imageWidth imageHeight name envs (k + 1) remaining

/-- `max_retries = 5` in `_generate_single_image`. -/
def maxRetries : Nat := 5

def genSingleImage (imageWidth imageHeight : Nat) (name : String)
    (envs : Nat → Option AttemptEnv) : ImageOutcome :=
  genLoop imageWidth imageHeight name envs 0 maxRetries

/-- Zero-padded six-digit rendering of an index (`f"{idx:06d}"`). -/
def padSix (n : Nat) : String :=
  let s := toString n
  String.mk (List.replicate (6 - s.length) '0') ++ s

/-- `f"{split_name}_{image_idx:06d}"` of `_generate_split`. -/
def imageName (split : String) (idx : Nat) : String :=
  split ++ "_" ++ padSix idx

/-- Embedding of `_generate_split` (`generator.py`, lines 301-319): one
image per index, indices starting at `startIdx`; each image's attempts draw
their own environments. -/
def genSplit (imageWidth imageHeight : Nat) (split : String)
    (numImages startIdx : Nat) (envs : Nat → Nat → Option AttemptEnv) :
    List ImageOutcome :=
  (List.range numImages).map fun i =>
    genSingleImage imageWidth imageHeight (imageName split (startIdx + i)) (envs i)

/-- "The attempt with environment `e` fails": either it raises (modelled by
`none`) or it returns without valid records. -/
def attemptFails (imageWidth imageHeight : Nat) (e : Option AttemptEnv) : Prop :=
  ∀ env, e = some env → (runAttempt imageWidth imageHeight env).success = false

theorem genLoop_all_fail (imageWidth imageHeight : Nat) (name : String)
    (envs : Nat → Option AttemptEnv) :
    ∀ remaining k, (∀ t, t < k + remaining → attemptFails imageWidth imageHeight (envs t)) →
      genLoop imageWidth imageHeight name envs k remaining
        = ImageOutcome.skipped (k + remaining) := by
  intro remaining
  induction remaining with
  | zero => intro k _; rfl
  | succ r ih =>
    intro k hfail
    show genLoop imageWidth imageHeight name envs k (r + 1) = _
    unfold genLoop
    cases he : envs k with
    | none =>
      show genLoop imageWidth imageHeight name envs (k + 1) r
        = ImageOutcome.skipped (k + (r + 1))
      rw [show k + (r + 1) = (k + 1) + r from by omega]
      exact ih (k + 1) (fun t ht => hfail t (by omega))
    | some env =>
      show (if (runAttempt imageWidth imageHeight env).success = true then
          ImageOutcome.written [name ++ ".jpg", name ++ ".txt"] (k + 1)
        else genLoop imageWidth imageHeight name envs (k + 1) r)
        = ImageOutcome.skipped (k + (r + 1))
      have hf : (runAttempt imageWidth imageHeight env).success = false :=
        hfail k (by omega) env he
      rw [hf, if_neg Bool.false_ne_true]
      rw [show k + (r + 1) = (k + 1) + r from by omega]
      exact ih (k + 1) (fun t ht => hfail t (by omega))

/-- **C2.** If every attempt for image index `j` fails (returns no valid
records or raises), the orchestrator makes exactly `max_retries = 5`
attempts, writes no image and no label file for that index, does not raise
(the outcome is `skipped`, not an error), and the batch loop still produces
one outcome per index with every other index processed independently. -/
theorem retry_budget_exhausted_skips_image (imageWidth imageHeight : Nat)
    (split : String) (numImages startIdx j : Nat)
    (envs : Nat → Nat → Option AttemptEnv)
    (hj : j < numImages)
    (hfail : ∀ k, k < maxRetries → attemptFails imageWidth imageHeight (envs j k)) :
    maxRetries = 5 ∧
    (genSplit imageWidth imageHeight split numImages startIdx envs).length = numImages ∧
    (genSplit imageWidth imageHeight split numImages startIdx envs)[j]?
      = some (ImageOutcome.skipped 5) ∧
    outcomeFiles (ImageOutcome.skipped 5) = [] ∧
    (∀ i, i < numImages →
      (genSplit imageWidth imageHeight split numImages startIdx envs)[i]?
        = some (genSingleImage imageWidth imageHeight
            (imageName split (startIdx + i)) (envs i))) := by
  have helem : ∀ i, i < numImages →
      (genSplit imageWidth imageHeight split numImages startIdx envs)[i]?
        = some (genSingleImage imageWidth imageHeight
            (imageName split (startIdx + i)) (envs i)) := by
    intro i hi
    unfold genSplit
    rw [List.getElem?_map, List.getElem?_range hi]
    rfl
  have hskip : genSingleImage imageWidth imageHeight
      (imageName split (startIdx + j)) (envs j) = ImageOutcome.skipped 5 := by
    unfold genSingleImage
    have := genLoop_all_fail imageWidth imageHeight
      (imageName split (startIdx + j)) (envs j) maxRetries 0
      (fun t ht => hfail t (by omega))
    rw [this]
    rfl
  refine ⟨rfl, by simp [genSplit], ?_, rfl, helem⟩
  rw [helem j hj, hskip]

/-- Witness for C2: a batch of one image whose every attempt raises is
skipped after five attempts. -/
theorem retry_budget_exhausted_skips_image_witness :
    ((0 : Nat) < 1 ∧ ∀ k, k < maxRetries →
      attemptFails 2 2 ((fun _ _ => (none : Option AttemptEnv)) 0 k)) ∧
    (genSplit 2 2 "train" 1 0 (fun _ _ => none))[0]?
      = some (ImageOutcome.skipped 5) :=
  ⟨⟨Nat.one_pos, fun _ _ _ h => nomatch h⟩,
   (retry_budget_exhausted_skips_image 2 2 "train" 1 0 0 (fun _ _ => none)
     Nat.one_pos (fun _ _ _ h => nomatch h)).2.2.1⟩

/-- **C7.** After settling, an object is kept exactly when its position has
height strictly above 0 and both horizontal coordinates strictly inside
±1.0; all other objects are removed and excluded from the records; and when
zero objects survive the attempt fails before any render is performed. -/
theorem settle_validation_filter_and_early_failure (imageWidth imageHeight : Nat)
    (env : AttemptEnv) :
    (∀ o, o ∈ env.objs.filter isValidObj ↔
        o ∈ env.objs ∧ (0 < o.z ∧ |o.x| < 1 ∧ |o.y| < 1)) ∧
    (env.objs.filter isValidObj = [] →
      runAttempt imageWidth imageHeight env
        = ⟨false, false, []⟩) ∧
    (env.objs.filter isValidObj ≠ [] →
      (runAttempt imageWidth imageHeight env).renderDone = true ∧
      (runAttempt imageWidth imageHeight env).recs
        = genRecords imageWidth imageHeight env.seg (env.objs.filter isValidObj)) := by
  refine ⟨?_, ?_, ?_⟩
  · intro o
    simp [List.mem_filter, isValidObj, and_assoc]
  · intro h
    unfold runAttempt
    rw [h]
    rfl
  · intro h
    have hne : (env.objs.filter isValidObj).isEmpty = false := by
      rw [List.isEmpty_eq_false]
      exact h
    by_cases hr : (genRecords imageWidth imageHeight env.seg
        (env.objs.filter isValidObj)).isEmpty
    · simp [runAttempt, hne, hr]
    · have hr' := Bool.eq_false_iff.mpr hr
      simp [runAttempt, hne, hr']

/-- Witness for C7: a single object resting at height 0 is invalid; the
attempt fails with no render. -/
theorem settle_validation_filter_witness :
    (([⟨0, 0, 0, 0⟩] : List SceneObj).filter isValidObj = [] ∧
      ((⟨[⟨0, 0, 0, 0⟩], []⟩ : AttemptEnv)).objs.filter isValidObj = []) ∧
    runAttempt 2 2 ⟨[⟨0, 0, 0, 0⟩], []⟩ = ⟨false, false, []⟩ := by
  have hfilter : (([⟨0, 0, 0, 0⟩] : List SceneObj).filter isValidObj) = [] := by
    simp [isValidObj]
  exact ⟨⟨hfilter, hfilter⟩,
    (settle_validation_filter_and_early_failure 2 2 ⟨[⟨0, 0, 0, 0⟩], []⟩).2.1 hfilter⟩


/-! ### Split sizing (`generator.py::generate`, lines 260-263)

`num_images * train_split` is evaluated in Python on IEEE-754 binary64
values: the stored ratio is a double and the product is rounded to the
nearest double before `int()` truncates it.  The rounding is embedded
exactly: a positive rational is scaled so that its significand lies in
`[2^52, 2^53)` and the significand is rounded to the nearest integer with
ties to even.  Overflow and subnormals (irrelevant at this pipeline's
magnitudes) are not modelled. -/

/-- Round to the nearest integer, ties to even, as IEEE-754
round-to-nearest-even does for significands. -/
def roundHalfEven (m : ℚ) : ℤ :=
  if m - ⌊m⌋ < 1 / 2 then ⌊m⌋
  else if 1 / 2 < m - ⌊m⌋ then ⌊m⌋ + 1
  else if ⌊m⌋ % 2 = 0 then ⌊m⌋ else ⌊m⌋ + 1

/-- Nearest binary64 value of a positive rational: the scaled significand
`x / 2 ^ (Int.log 2 x - 52)` lies in `[2^52, 2^53)` and is rounded to an
integer with ties to even. -/
def flPos (x : ℚ) : ℚ :=
  (roundHalfEven (x / 2 ^ (Int.log 2 x - 52)) : ℚ) * 2 ^ (Int.log 2 x - 52)

/-- Nearest binary64 value of a rational (IEEE rounding is symmetric in
sign). -/
def fl (x : ℚ) : ℚ :=
  if x < 0 then -flPos (-x) else flPos x

theorem abs_roundHalfEven_sub (m : ℚ) : |(roundHalfEven m : ℚ) - m| ≤ 1 / 2 := by
  have h0 : ((⌊m⌋ : ℤ) : ℚ) ≤ m := Int.floor_le m
  have h1 : m < ⌊m⌋ + 1 := Int.lt_floor_add_one m
  unfold roundHalfEven
  split
  · next h => rw [abs_le]; constructor <;> linarith
  · next h =>
    push_neg at h
    split
    · next h' => rw [abs_le]; constructor <;> push_cast <;> linarith
    · next h' =>
      push_neg at h'
      split
      · rw [abs_le]; constructor <;> linarith
      · rw [abs_le]; constructor <;> push_cast <;> linarith

/-- `Int.log 2` is characterized by the binade bracketing. -/
theorem int_log_two_eq {x : ℚ} {n : ℤ} (hx : 0 < x)
    (h1 : (2 : ℚ) ^ n ≤ x) (h2 : x < (2 : ℚ) ^ (n + 1)) : Int.log 2 x = n := by
  have h1' : ((2 : ℕ) : ℚ) ^ n ≤ x := by push_cast; exact h1
  have h2' : x < ((2 : ℕ) : ℚ) ^ (n + 1) := by push_cast; exact h2
  have hup := (Int.zpow_le_iff_le_log (show (1 : ℕ) < 2 by norm_num) hx).mp h1'
  have hlo := (Int.lt_zpow_iff_log_lt (show (1 : ℕ) < 2 by norm_num) hx).mp h2'
  omega

/-- Evaluation rule for `flPos` once the binade of the argument is known. -/
theorem flPos_eq (n : ℤ) {x : ℚ} (hx : 0 < x)
    (h1 : (2 : ℚ) ^ n ≤ x) (h2 : x < (2 : ℚ) ^ (n + 1)) :
    flPos x = (roundHalfEven (x / 2 ^ (n - 52)) : ℚ) * 2 ^ (n - 52) := by
  unfold flPos
  rw [int_log_two_eq hx h1 h2]

/-- Binary64 rounding of a positive value moves it by at most one part in
`2^53` (half an ulp). -/
theorem flPos_err {x : ℚ} (hx : 0 < x) : |flPos x - x| ≤ x / 9007199254740992 := by
  have h1' := Int.zpow_log_le_self (show (1 : ℕ) < 2 by norm_num) hx
  have h2' := Int.lt_zpow_succ_log_self (show (1 : ℕ) < 2 by norm_num) x
  push_cast at h1' h2'
  set L := Int.log 2 x with hL
  set e := L - 52 with he
  have h2e : (0 : ℚ) < 2 ^ e := by positivity
  have h2e' : (2 : ℚ) ^ e ≠ 0 := ne_of_gt h2e
  have hr := abs_roundHalfEven_sub (x / 2 ^ e)
  have hflpos : flPos x = (roundHalfEven (x / 2 ^ e) : ℚ) * 2 ^ e := by
    unfold flPos
    rw [← hL, ← he]
  rw [hflpos]
  have key : (roundHalfEven (x / 2 ^ e) : ℚ) * 2 ^ e - x
      = ((roundHalfEven (x / 2 ^ e) : ℚ) - x / 2 ^ e) * 2 ^ e := by
    rw [sub_mul, div_mul_cancel₀ _ h2e']
  rw [key, abs_mul, abs_of_pos h2e]
  have hb1 : |(roundHalfEven (x / 2 ^ e) : ℚ) - x / 2 ^ e| * 2 ^ e ≤ (1 / 2) * 2 ^ e :=
    mul_le_mul_of_nonneg_right hr h2e.le
  have hx52 : (2 : ℚ) ^ e * 4503599627370496 ≤ x := by
    have hLe : L = e + 52 := by omega
    rw [hLe, zpow_add₀ (by norm_num : (2 : ℚ) ≠ 0)] at h1'
    have hnum : (2 : ℚ) ^ (52 : ℤ) = 4503599627370496 := by norm_num
    rw [hnum] at h1'
    exact h1'
  have hfin : (1 / 2 : ℚ) * 2 ^ e ≤ x / 9007199254740992 := by
    rw [le_div_iff₀ (by norm_num : (0 : ℚ) < 9007199254740992)]
    linarith
  linarith

theorem fl_eq_flPos_of_nonneg {x : ℚ} (hx : 0 ≤ x) : fl x = flPos x := by
  unfold fl
  rw [if_neg (not_lt.mpr hx)]

theorem flPos_zero : flPos 0 = 0 := by
  have h : roundHalfEven 0 = 0 := by
    unfold roundHalfEven
    norm_num
  unfold flPos
  rw [zero_div, h]
  norm_num

theorem fl_err {x : ℚ} (hx : 0 ≤ x) : |fl x - x| ≤ x / 9007199254740992 := by
  rcases eq_or_lt_of_le hx with h | h
  · rw [← h, fl_eq_flPos_of_nonneg le_rfl, flPos_zero]
    norm_num
  · rw [fl_eq_flPos_of_nonneg hx]
    exact flPos_err h

theorem fl_nonneg {x : ℚ} (hx : 0 ≤ x) : 0 ≤ fl x := by
  have herr := fl_err hx
  rw [abs_le] at herr
  have hd : x / 9007199254740992 ≤ x := by
    rw [div_le_iff₀ (by norm_num : (0 : ℚ) < 9007199254740992)]
    nlinarith
  linarith [herr.1]

/-- Floors of values at most `1/2` apart differ by at most one. -/
theorem floor_abs_sub_le_one {y x : ℚ} (h : |y - x| ≤ 1 / 2) : |⌊y⌋ - ⌊x⌋| ≤ 1 := by
  rw [abs_le] at h ⊢
  have hf1 : ((⌊x⌋ : ℤ) : ℚ) ≤ x := Int.floor_le x
  have hf2 : x < ⌊x⌋ + 1 := Int.lt_floor_add_one x
  have hy1 : ((⌊y⌋ : ℤ) : ℚ) ≤ y := Int.floor_le y
  have hy2 : y < ⌊y⌋ + 1 := Int.lt_floor_add_one y
  constructor
  · have hc : ((⌊x⌋ - 1 : ℤ) : ℚ) ≤ y := by push_cast; linarith
    have := Int.le_floor.mpr hc
    omega
  · have hc : y < ((⌊x⌋ + 2 : ℤ) : ℚ) := by push_cast; linarith
    have := Int.floor_lt.mpr hc
    omega

theorem roundHalfEven_eq_floor (f : ℤ) {m : ℚ} (h1 : (f : ℚ) ≤ m)
    (h2 : m - f < 1 / 2) : roundHalfEven m = f := by
  have hf : ⌊m⌋ = f := Int.floor_eq_iff.mpr ⟨h1, by linarith⟩
  unfold roundHalfEven
  rw [hf, if_pos h2]

theorem roundHalfEven_tie_odd (f : ℤ) {m : ℚ} (h1 : (f : ℚ) ≤ m)
    (h2 : m - f = 1 / 2) (h3 : f % 2 ≠ 0) : roundHalfEven m = f + 1 := by
  have hf : ⌊m⌋ = f := Int.floor_eq_iff.mpr ⟨h1, by linarith⟩
  unfold roundHalfEven
  rw [hf, if_neg (by rw [h2]; exact lt_irrefl _),
    if_neg (by rw [h2]; exact lt_irrefl _), if_neg h3]

/-- Embedding of the split-size computation in `generate` (`generator.py`,
lines 260-263): `num_train = int(num_images * train_split)`,
`num_val = int(num_images * val_split)`,
`num_test = num_images - num_train - num_val`.  The ratio arguments are the
binary64 values stored in the configuration; the product is computed in
binary64, i.e. `fl` of the exact product (the int→float conversion of
`num_images` is exact below `2^53`); Python `int()` truncates toward
zero. -/
def splitSizes (numImages : Nat) (trainSplit valSplit : ℚ) : ℤ × ℤ × ℤ :=
  let numTrain := intTrunc (fl ((numImages : ℚ) * trainSplit))
  let numVal := intTrunc (fl ((numImages : ℚ) * valSplit))
  (numTrain, numVal, (numImages : ℤ) - numTrain - numVal)

/-- **C5 (counterexample).** With the repository's default ratios `0.7` /
`0.15`, the stored double for `0.7` is `3152519739159347/2^52` (just below
`7/10`).  At `T = 90` the double product is `62.99999999999999289…`, so the
program computes `num_train = 62` while `⌊90·0.7⌋ = 63` — the claimed exact
floor characterization fails.  The alternative reading, `tr` as the stored
double itself, fails at `T = 10`: the double product rounds up to exactly
`7.0` (a tie resolved to the even significand), so the program computes
`num_train = 7` while `⌊10·fl(0.7)⌋ = 6`. -/
theorem split_sizes_exact_floor_cex :
    fl (7 / 10) = 3152519739159347 / 4503599627370496 ∧
    (splitSizes 90 (fl (7 / 10)) (fl (3 / 20))).1 = 62 ∧
    ⌊(90 : ℚ) * (7 / 10)⌋ = 63 ∧
    (splitSizes 90 (fl (7 / 10)) (fl (3 / 20))).1 ≠ ⌊(90 : ℚ) * (7 / 10)⌋ ∧
    (splitSizes 10 (fl (7 / 10)) (fl (3 / 20))).1 = 7 ∧
    ⌊(10 : ℚ) * fl (7 / 10)⌋ = 6 ∧
    (splitSizes 10 (fl (7 / 10)) (fl (3 / 20))).1 ≠ ⌊(10 : ℚ) * fl (7 / 10)⌋ := by
  have h07 : fl (7 / 10 : ℚ) = 3152519739159347 / 4503599627370496 := by
    rw [fl_eq_flPos_of_nonneg (by norm_num)]
    rw [flPos_eq (-1) (by norm_num) (by norm_num) (by norm_num)]
    rw [show ((-1 : ℤ) - 52) = -53 by norm_num]
    rw [show (7 / 10 : ℚ) / 2 ^ (-53 : ℤ) = 6305039478318694 + 2 / 5 by norm_num]
    rw [roundHalfEven_eq_floor 6305039478318694 (by norm_num) (by norm_num)]
    norm_num
  have h90 : fl ((90 : ℚ) * (3152519739159347 / 4503599627370496))
      = 8866461766385663 * (2 : ℚ) ^ (-47 : ℤ) := by
    rw [show (90 : ℚ) * (3152519739159347 / 4503599627370496)
        = 141863388262170615 / 2251799813685248 by norm_num]
    rw [fl_eq_flPos_of_nonneg (by norm_num)]
    rw [flPos_eq 5 (by norm_num) (by norm_num) (by norm_num)]
    rw [show ((5 : ℤ) - 52) = -47 by norm_num]
    rw [show (141863388262170615 / 2251799813685248 : ℚ) / 2 ^ (-47 : ℤ)
        = 8866461766385663 + 7 / 16 by norm_num]
    rw [roundHalfEven_eq_floor 8866461766385663 (by norm_num) (by norm_num)]
    norm_num
  have h10 : fl ((10 : ℚ) * (3152519739159347 / 4503599627370496)) = 7 := by
    rw [show (10 : ℚ) * (3152519739159347 / 4503599627370496)
        = 15762598695796735 / 2251799813685248 by norm_num]
    rw [fl_eq_flPos_of_nonneg (by norm_num)]
    rw [flPos_eq 2 (by norm_num) (by norm_num) (by norm_num)]
    rw [show ((2 : ℤ) - 52) = -50 by norm_num]
    rw [show (15762598695796735 / 2251799813685248 : ℚ) / 2 ^ (-50 : ℤ)
        = 7881299347898367 + 1 / 2 by norm_num]
    rw [roundHalfEven_tie_odd 7881299347898367 (by norm_num) (by norm_num) (by decide)]
    push_cast
    norm_num
  have h90v : (splitSizes 90 (fl (7 / 10)) (fl (3 / 20))).1 = 62 := by
    show intTrunc (fl ((90 : ℚ) * fl (7 / 10))) = 62
    rw [h07, h90]
    exact intTrunc_eq_of_bounds _ 62 (by norm_num) (by norm_num) (by norm_num)
  have h63 : ⌊(90 : ℚ) * (7 / 10)⌋ = 63 := by
    rw [show (90 : ℚ) * (7 / 10) = 63 by norm_num, Int.floor_eq_iff]
    constructor <;> norm_num
  have h10v : (splitSizes 10 (fl (7 / 10)) (fl (3 / 20))).1 = 7 := by
    show intTrunc (fl ((10 : ℚ) * fl (7 / 10))) = 7
    rw [h07, h10]
    exact intTrunc_eq_of_bounds _ 7 (by norm_num) (by norm_num) (by norm_num)
  have h6 : ⌊(10 : ℚ) * fl (7 / 10)⌋ = 6 := by
    rw [h07, Int.floor_eq_iff]
    constructor <;> norm_num
  refine ⟨h07, h90v, h63, ?_, h10v, h6, ?_⟩
  · rw [h90v, h63]; decide
  · rw [h10v, h6]; decide

/-- **C5 (amended).** For a total count `T ≥ 0` and a valid ratio triple of
stored values, the computed sizes satisfy `numTrain = ⌊fl(T·tr)⌋` and
`numVal = ⌊fl(T·va)⌋` — the floor of the binary64 product, which for
`T ≤ 2^52` is within one of the exact `⌊T·tr⌋` resp. `⌊T·va⌋` (the exact
floor itself is not always attained, see the counterexample) — and
`numTest = T - numTrain - numVal`, so the three always sum to exactly
`T`. -/
theorem split_sizes_fp_floor_and_exact_sum (T : Nat) (tr va te : ℚ)
    (htr0 : 0 ≤ tr) (htr1 : tr ≤ 1) (hva0 : 0 ≤ va) (hva1 : va ≤ 1)
    (hte0 : 0 ≤ te) (hte1 : te ≤ 1)
    (hsum1 : 99 / 100 ≤ tr + va + te) (hsum2 : tr + va + te ≤ 101 / 100)
    (hT : (T : ℚ) ≤ 4503599627370496) :
    (splitSizes T tr va).1 = ⌊fl ((T : ℚ) * tr)⌋ ∧
    (splitSizes T tr va).2.1 = ⌊fl ((T : ℚ) * va)⌋ ∧
    |(splitSizes T tr va).1 - ⌊(T : ℚ) * tr⌋| ≤ 1 ∧
    |(splitSizes T tr va).2.1 - ⌊(T : ℚ) * va⌋| ≤ 1 ∧
    (splitSizes T tr va).2.2 = (T : ℤ) - (splitSizes T tr va).1 - (splitSizes T tr va).2.1 ∧
    (splitSizes T tr va).1 + (splitSizes T tr va).2.1 + (splitSizes T tr va).2.2
      = (T : ℤ) := by
  have hT0 : (0 : ℚ) ≤ (T : ℚ) := by positivity
  have hx1 : (0 : ℚ) ≤ (T : ℚ) * tr := mul_nonneg hT0 htr0
  have hx2 : (0 : ℚ) ≤ (T : ℚ) * va := mul_nonneg hT0 hva0
  have hb1 : (T : ℚ) * tr ≤ 4503599627370496 := by nlinarith
  have hb2 : (T : ℚ) * va ≤ 4503599627370496 := by nlinarith
  have hh1 : |fl ((T : ℚ) * tr) - (T : ℚ) * tr| ≤ 1 / 2 := by
    refine (fl_err hx1).trans ?_
    rw [div_le_iff₀ (by norm_num : (0 : ℚ) < 9007199254740992)]
    nlinarith
  have hh2 : |fl ((T : ℚ) * va) - (T : ℚ) * va| ≤ 1 / 2 := by
    refine (fl_err hx2).trans ?_
    rw [div_le_iff₀ (by norm_num : (0 : ℚ) < 9007199254740992)]
    nlinarith
  have he1 : (splitSizes T tr va).1 = ⌊fl ((T : ℚ) * tr)⌋ := by
    show intTrunc (fl ((T : ℚ) * tr)) = ⌊fl ((T : ℚ) * tr)⌋
    unfold intTrunc
    rw [if_pos (fl_nonneg hx1)]
  have he2 : (splitSizes T tr va).2.1 = ⌊fl ((T : ℚ) * va)⌋ := by
    show intTrunc (fl ((T : ℚ) * va)) = ⌊fl ((T : ℚ) * va)⌋
    unfold intTrunc
    rw [if_pos (fl_nonneg hx2)]
  refine ⟨he1, he2, ?_, ?_, rfl, ?_⟩
  · rw [he1]
    exact floor_abs_sub_le_one hh1
  · rw [he2]
    exact floor_abs_sub_le_one hh2
  · show intTrunc (fl ((T : ℚ) * tr)) + intTrunc (fl ((T : ℚ) * va))
      + ((T : ℤ) - intTrunc (fl ((T : ℚ) * tr)) - intTrunc (fl ((T : ℚ) * va))) = (T : ℤ)
    ring

/-- Witness for the amended C5 at `T = 10`, ratios `(0.7, 0.15, 0.15)`. -/
theorem split_sizes_fp_floor_and_exact_sum_witness :
    ((0 : ℚ) ≤ 7 / 10 ∧ (99 / 100 : ℚ) ≤ 7 / 10 + 3 / 20 + 3 / 20 ∧
      (10 : ℚ) ≤ 4503599627370496) ∧
    (splitSizes 10 (7 / 10) (3 / 20)).1 + (splitSizes 10 (7 / 10) (3 / 20)).2.1
      + (splitSizes 10 (7 / 10) (3 / 20)).2.2 = (10 : ℤ) :=
  ⟨⟨by norm_num, by norm_num, by norm_num⟩,
   (split_sizes_fp_floor_and_exact_sum 10 (7 / 10) (3 / 20) (3 / 20) (by norm_num)
     (by norm_num) (by norm_num) (by norm_num) (by norm_num) (by norm_num)
     (by norm_num) (by norm_num) (by norm_num)).2.2.2.2.2⟩

/-! ### Index continuation (`generator.py::_get_next_index`, lines 186-222)

String manipulation is embedded with structural recursions over `List Char`
so that every definition is kernel-reducible. -/

/-- `l` begins with `p`. -/
def leadsWith : List Char → List Char → Bool
  | [], _ => true
  | _ :: _, [] => false
  | p :: ps, c :: cs => p == c && leadsWith ps cs

/-- Glob match for the pattern `{split}_*.jpg` (as used by
`images_dir.glob(f"{split_name}_*.jpg")`): the name decomposes as the
pattern's head, any characters, and `.jpg`. -/
def globMatch (split : String) (name : String) : Bool :=
  leadsWith (split ++ "_").toList name.toList &&
  leadsWith ".jpg".toList.reverse name.toList.reverse &&
  decide ((split ++ "_").toList.length + 4 ≤ name.toList.length)

/-- `Path.stem` for a name that ends in the 4-character extension `.jpg`
(every glob-matched name does, and its last dot starts that extension). -/
def stemOf (name : String) : String :=
  String.mk (name.toList.take (name.toList.length - 4))

/-- Python `str.split(sep)` for a one-character separator. -/
def splitOnChar (sep : Char) : List Char → List (List Char)
  | [] => [[]]
  | c :: cs =>
    let r := splitOnChar sep cs
    if c == sep then [] :: r
    else
      match r with
      | [] => [[c]]
      | h :: t => (c :: h) :: t

/-- `filename.split('_')[-1]`. -/
def lastUnderscoreToken (s : String) : String :=
  String.mk ((splitOnChar '_' s.toList).getLastD [])

def isDigitChar (c : Char) : Bool :=
  decide (48 ≤ c.toNat) && decide (c.toNat ≤ 57)

def digitsToNat (l : List Char) : Nat :=
  l.foldl (fun a c => a * 10 + (c.toNat - 48)) 0

/-- Python `int(s)` on a string with no underscores or inner whitespace:
an optional sign followed by at least one digit; `None` models
`ValueError`. -/
def parsePyInt (s : String) : Option Int :=
  match s.toList with
  | [] => none
  | '-' :: rest =>
    if !rest.isEmpty && rest.all isDigitChar then some (-(digitsToNat rest : Int))
    else none
  | '+' :: rest =>
    if !rest.isEmpty && rest.all isDigitChar then some (digitsToNat rest : Int)
    else none
  | l =>
    if l.all isDigitChar then some (digitsToNat l : Int) else none

/-- `max(indices)` on a nonempty list. -/
def intsMax (a : Int) (l : List Int) : Int :=
  l.foldl max a

/-- Embedding of `_get_next_index` (`generator.py`, lines 186-222): `0` when
the split's images directory does not exist; glob the directory for
`{split}_*.jpg`; `0` when nothing matches; parse the part of each stem after
the last underscore, skipping files where parsing fails; `max + 1` when any
index was parsed, else `0`. -/
def getNextIndex (dir : Option (List String)) (split : String) : Int :=
  match dir with
  | none => 0
  | some files =>
    let existingImages := files.filter (globMatch split)
    if existingImages.isEmpty then 0
    else
      let indices := existingImages.filterMap fun f =>
        parsePyInt (lastUnderscoreToken (stemOf f))
      match indices with
      | [] => 0
      | a :: t => intsMax a t + 1

/-- Modelled from the spec's words (P1, `DatasetIndex`): the next ordinal is
`max + 1` over the indices parsed from the matching files of the split's own
images directory, or `0` when the directory is missing or yields no index. -/
def nextIndexSpec (dir : Option (List String)) (split : String) : Int :=
  match dir with
  | none => 0
  | some files =>
    match (files.filter (globMatch split)).filterMap
        (fun f => parsePyInt (lastUnderscoreToken (stemOf f))) with
    | [] => 0
    | a :: t => intsMax a t + 1

/-- The per-split image directory listings found at startup (`none` models a
missing directory). -/
structure OutputDirs where
  trainImages : Option (List String)
  valImages : Option (List String)
  testImages : Option (List String)

/-- The three starting indices computed in `__init__` (`generator.py`, lines
66-68), each from its own split's images directory. -/
def startIndices (d : OutputDirs) : Int × Int × Int :=
  (getNextIndex d.trainImages "train", getNextIndex d.valImages "val",
   getNextIndex d.testImages "test")

/-- **C6.** The starting index of a split equals `max + 1` over the indices
parsed from that split's own `{split}_*.jpg` files — or `0` when the
directory is missing or yields no parsed index; each split's value depends
only on its own images directory, so it is independent of the other splits'
contents; and a directory holding `train_000000.jpg` … `train_000004.jpg`
yields next train index `5`. -/
theorem next_index_appends_per_split :
    (∀ (dir : Option (List String)) (split : String),
      getNextIndex dir split = nextIndexSpec dir split) ∧
    getNextIndex (some ["train_000000.jpg", "train_000001.jpg", "train_000002.jpg",
      "train_000003.jpg", "train_000004.jpg"]) "train" = 5 ∧
    (∀ d d' : OutputDirs, d.trainImages = d'.trainImages →
      (startIndices d).1 = (startIndices d').1) ∧
    (∀ d d' : OutputDirs, d.valImages = d'.valImages →
      (startIndices d).2.1 = (startIndices d').2.1) ∧
    (∀ d d' : OutputDirs, d.testImages = d'.testImages →
      (startIndices d).2.2 = (startIndices d').2.2) := by
  refine ⟨?_, by decide, ?_, ?_, ?_⟩
  · intro dir split
    cases dir with
    | none => rfl
    | some files =>
      by_cases h : files.filter (globMatch split) = []
      · simp [getNextIndex, nextIndexSpec, h]
      · have h' : (files.filter (globMatch split)).isEmpty = false := by
          rw [List.isEmpty_eq_false]
          exact h
        simp [getNextIndex, nextIndexSpec, h']
  · intro d d' h
    show getNextIndex d.trainImages "train" = getNextIndex d'.trainImages "train"
    rw [h]
  · intro d d' h
    show getNextIndex d.valImages "val" = getNextIndex d'.valImages "val"
    rw [h]
  · intro d d' h
    show getNextIndex d.testImages "test" = getNextIndex d'.testImages "test"
    rw [h]

/-- Witness for C6: instantiating the characterization at a directory with a
gap and a foreign file (`val_000003.jpg` is ignored by the train split). -/
theorem next_index_appends_per_split_witness :
    (some ["train_000002.jpg", "val_000003.jpg"] : Option (List String))
        = some ["train_000002.jpg", "val_000003.jpg"] ∧
    getNextIndex (some ["train_000002.jpg", "val_000003.jpg"]) "train"
      = nextIndexSpec (some ["train_000002.jpg", "val_000003.jpg"]) "train" ∧
    getNextIndex (some ["train_000002.jpg", "val_000003.jpg"]) "train" = 3 ∧
    (startIndices ⟨some ["train_000002.jpg"], none, none⟩).1
      = (startIndices ⟨some ["train_000002.jpg"], some ["val_000009.jpg"], none⟩).1 :=
  ⟨rfl, next_index_appends_per_split.1 (some ["train_000002.jpg", "val_000003.jpg"]) "train",
   by decide,
   next_index_appends_per_split.2.2.1 ⟨some ["train_000002.jpg"], none, none⟩
     ⟨some ["train_000002.jpg"], some ["val_000009.jpg"], none⟩ rfl⟩


/-! ### Configuration validation (`pipeline/config.py`)

Each pydantic model's field constraints and custom validators are embedded
as one boolean predicate per configuration class.  Fields that carry no
constraint and play no role in validation (booleans, colors, the gravity
vector, the resolution pair, the render engine literal) do not affect
acceptance and are omitted from the records. -/

/-- `CameraConfig`: `nadir_angle_range` and `distance_range` (validated
`min < max` by `validate_range`), `orbit_angles ≥ 1`, `focal_length > 0`. -/
structure CameraCfg where
  nadirLo : ℚ
  nadirHi : ℚ
  orbitAngles : ℤ
  distLo : ℚ
  distHi : ℚ
  focalLength : ℚ

def cameraValid (c : CameraCfg) : Bool :=
  decide (c.nadirLo < c.nadirHi) && decide (c.distLo < c.distHi) &&
  decide (1 ≤ c.orbitAngles) && decide (0 < c.focalLength)

/-- `PhysicsConfig`: `drop_height ≥ 0`, `simulation_steps ≥ 1`,
`friction ∈ [0,1]`, `restitution ∈ [0,1]`. -/
structure PhysicsCfg where
  dropHeight : ℚ
  simulationSteps : ℤ
  friction : ℚ
  restitution : ℚ

def physicsValid (p : PhysicsCfg) : Bool :=
  decide (0 ≤ p.dropHeight) && decide (1 ≤ p.simulationSteps) &&
  decide (0 ≤ p.friction) && decide (p.friction ≤ 1) &&
  decide (0 ≤ p.restitution) && decide (p.restitution ≤ 1)

/-- `LightingConfig` (`config.py`, lines 59-73): `num_lights`,
`intensity_range` and `color_temp_range` carry NO validator and no field
constraint — the source declares the fields with defaults only. -/
structure LightingCfg where
  numLightsLo : ℤ
  numLightsHi : ℤ
  intensityLo : ℚ
  intensityHi : ℚ
  colorTempLo : ℚ
  colorTempHi : ℚ

def lightingValid (_ : LightingCfg) : Bool :=
  true

/-- `BackgroundConfig`: `color_variation ∈ [0,1]`. -/
structure BackgroundCfg where
  colorVariation : ℚ

def backgroundValid (b : BackgroundCfg) : Bool :=
  decide (0 ≤ b.colorVariation) && decide (b.colorVariation ≤ 1)

/-- `RenderConfig`: `samples ≥ 1`, `max_bounces ≥ 0`. -/
structure RenderCfg where
  samples : ℤ
  maxBounces : ℤ

def renderValid (r : RenderCfg) : Bool :=
  decide (1 ≤ r.samples) && decide (0 ≤ r.maxBounces)

/-- `ModelConfig`: `max_per_scene ≥ 1`, `min_per_scene ≥ 1`, and the
validator `validate_min_max` rejects only `min_per_scene > max_per_scene`
(equality is accepted); `scale_range` carries no constraint. -/
structure ModelCfg where
  maxPerScene : ℤ
  minPerScene : ℤ
  scaleLo : ℚ
  scaleHi : ℚ

def modelsValid (m : ModelCfg) : Bool :=
  decide (1 ≤ m.maxPerScene) && decide (1 ≤ m.minPerScene) &&
  decide (m.minPerScene ≤ m.maxPerScene)

/-- `DatasetConfig`: each split ratio in `[0,1]`, and
`validate_splits_sum_to_one` accepts a total in `[0.99, 1.01]`. -/
structure DatasetCfg where
  trainSplit : ℚ
  valSplit : ℚ
  testSplit : ℚ

def datasetValid (d : DatasetCfg) : Bool :=
  decide (0 ≤ d.trainSplit) && decide (d.trainSplit ≤ 1) &&
  decide (0 ≤ d.valSplit) && decide (d.valSplit ≤ 1) &&
  decide (0 ≤ d.testSplit) && decide (d.testSplit ≤ 1) &&
  decide (99 / 100 ≤ d.trainSplit + d.valSplit + d.testSplit) &&
  decide (d.trainSplit + d.valSplit + d.testSplit ≤ 101 / 100)

/-- `GenerationConfig`: the sub-configurations plus `num_images ≥ 1` and the
`validate_model_dir_exists` validator (directory exists and is a
directory). -/
structure GenerationCfg where
  modelDirExists : Bool
  modelDirIsDir : Bool
  numImages : ℤ
  camera : CameraCfg
  physics : PhysicsCfg
  lighting : LightingCfg
  background : BackgroundCfg
  rendering : RenderCfg
  models : ModelCfg
  dataset : DatasetCfg

/-- A `GenerationConfig` construction succeeds exactly when every embedded
pydantic check passes. -/
def configValid (g : GenerationCfg) : Bool :=
  g.modelDirExists && g.modelDirIsDir && decide (1 ≤ g.numImages) &&
  cameraValid g.camera && physicsValid g.physics && lightingValid g.lighting &&
  backgroundValid g.background && renderValid g.rendering &&
  modelsValid g.models && datasetValid g.dataset

/-- A configuration in which the lighting intensity range has `min > max`
(and the lighting count and color-temperature ranges are inverted too),
while everything the source actually validates is in order. -/
def invertedLightingCfg : GenerationCfg :=
  ⟨true, true, 100,
   ⟨0, 15, 8, 1, 2, 50⟩,
   ⟨1, 100, 0, 1⟩,
   ⟨4, 2, 100, 30, 6500, 3000⟩,
   ⟨0⟩,
   ⟨128, 4⟩,
   ⟨5, 1, 2, 1⟩,
   ⟨1, 0, 0⟩⟩

/-- **C8 (counterexample).** A configuration whose lighting intensity range
(and count and color-temperature ranges) have `min ≥ max`, and whose model
scale range has `min ≥ max`, passes validation — contradicting the claim
that any declared `(min, max)` range with `min ≥ max` fails validation. -/
theorem config_validation_cex :
    invertedLightingCfg.lighting.intensityHi < invertedLightingCfg.lighting.intensityLo ∧
    invertedLightingCfg.lighting.numLightsHi < invertedLightingCfg.lighting.numLightsLo ∧
    invertedLightingCfg.lighting.colorTempHi < invertedLightingCfg.lighting.colorTempLo ∧
    invertedLightingCfg.models.scaleHi < invertedLightingCfg.models.scaleLo ∧
    configValid invertedLightingCfg = true := by
  refine ⟨by norm_num [invertedLightingCfg], by norm_num [invertedLightingCfg],
    by norm_num [invertedLightingCfg], by norm_num [invertedLightingCfg], ?_⟩
  norm_num [configValid, cameraValid, physicsValid, lightingValid, backgroundValid,
    renderValid, modelsValid, datasetValid, invertedLightingCfg]

/-- **C8 (amended).** Validation accepts a configuration exactly when: the
model directory exists and is a directory; `num_images ≥ 1`; the camera
nadir-angle and distance ranges have `min < max`, `orbit_angles ≥ 1` and the
focal length is positive; the physics bounds hold; the render sample/bounce
bounds hold; the background color variation lies in `[0,1]`; the per-scene
object counts are at least 1 with `min_per_scene ≤ max_per_scene` (equality
accepted); and each split ratio lies in `[0,1]` with their sum in
`[0.99, 1.01]`.  The lighting count/intensity/color-temperature ranges and
the model scale range are never checked. -/
theorem config_validation_iff (g : GenerationCfg) :
    configValid g = true ↔
      (g.modelDirExists = true ∧ g.modelDirIsDir = true ∧ 1 ≤ g.numImages ∧
       g.camera.nadirLo < g.camera.nadirHi ∧ g.camera.distLo < g.camera.distHi ∧
       1 ≤ g.camera.orbitAngles ∧ 0 < g.camera.focalLength ∧
       0 ≤ g.physics.dropHeight ∧ 1 ≤ g.physics.simulationSteps ∧
       0 ≤ g.physics.friction ∧ g.physics.friction ≤ 1 ∧
       0 ≤ g.physics.restitution ∧ g.physics.restitution ≤ 1 ∧
       0 ≤ g.background.colorVariation ∧ g.background.colorVariation ≤ 1 ∧
       1 ≤ g.rendering.samples ∧ 0 ≤ g.rendering.maxBounces ∧
       1 ≤ g.models.maxPerScene ∧ 1 ≤ g.models.minPerScene ∧
       g.models.minPerScene ≤ g.models.maxPerScene ∧
       0 ≤ g.dataset.trainSplit ∧ g.dataset.trainSplit ≤ 1 ∧
       0 ≤ g.dataset.valSplit ∧ g.dataset.valSplit ≤ 1 ∧
       0 ≤ g.dataset.testSplit ∧ g.dataset.testSplit ≤ 1 ∧
       99 / 100 ≤ g.dataset.trainSplit + g.dataset.valSplit + g.dataset.testSplit ∧
       g.dataset.trainSplit + g.dataset.valSplit + g.dataset.testSplit ≤ 101 / 100) := by
  simp only [configValid, cameraValid, physicsValid, lightingValid, backgroundValid,
    renderValid, modelsValid, datasetValid, Bool.and_eq_true, decide_eq_true_eq,
    and_true, true_and]
  tauto


/-! ### Model discovery (`objects/loader.py::discover_models`, lines 27-64) -/

/-- One immediate entry of the model directory: its name, whether it is a
directory, and (for directories) the names of the files inside. -/
structure DirEntry where
  entryName : String
  isDirectory : Bool
  files : List String
deriving Repr, DecidableEq

/-- `supported_formats` of `discover_models`. -/
def recognizedExts : List String :=
  [".obj", ".glb", ".gltf", ".ply", ".stl", ".fbx"]

/-- Index of the last `'.'` in a name, if any. -/
def lastDotIdx (l : List Char) : Option Nat :=
  ((l.enum.filter fun p => p.2 == '.').map Prod.fst).getLast?

/-- `Path.suffix`: the final dot-extension, empty for no dot or a leading
dot only (hidden files). -/
def fileExt (name : String) : String :=
  match lastDotIdx name.toList with
  | none => ""
  | some 0 => ""
  | some i => String.mk (name.toList.drop i)

def lowerChar (c : Char) : Char :=
  if 65 ≤ c.toNat ∧ c.toNat ≤ 90 then Char.ofNat (c.toNat + 32) else c

/-- `str.lower()` for ASCII. -/
def lowerStr (s : String) : String :=
  String.mk (s.toList.map lowerChar)

/-- ASCII-lexicographic comparison for the `sorted(...)` calls. -/
def lexLe : List Char → List Char → Bool
  | [], _ => true
  | _ :: _, [] => false
  | a :: as, b :: bs =>
    if a.toNat < b.toNat then true
    else if b.toNat < a.toNat then false
    else lexLe as bs

def insSorted (le : String → String → Bool) (a : String) : List String → List String
  | [] => [a]
  | b :: t => if le a b then a :: b :: t else b :: insSorted le a t

/-- A stable insertion sort standing in for Python `sorted`. -/
def sortStrs (le : String → String → Bool) : List String → List String
  | [] => []
  | a :: t => insSorted le a (sortStrs le t)

def strLe (a b : String) : Bool :=
  lexLe a.toList b.toList

def insSortedEntries (a : DirEntry) : List DirEntry → List DirEntry
  | [] => [a]
  | b :: t =>
    if strLe a.entryName b.entryName then a :: b :: t else b :: insSortedEntries a t

def sortEntries : List DirEntry → List DirEntry
  | [] => []
  | a :: t => insSortedEntries a (sortEntries t)

/-- `model_file.suffix.lower() in supported_formats`. -/
def isRecognizedModelFile (f : String) : Bool :=
  recognizedExts.contains (lowerStr (fileExt f))

/-- Embedding of `ModelLoader.discover_models` (`loader.py`, lines 27-64):
iterate the directory entries in sorted order, skip non-directories; each
directory's name is a class label; collect its files with a recognized
lowercased extension, sorted; keep only classes with at least one model.
The function returns the (possibly empty) catalog and has no failure path:
it raises no error of any kind. -/
def discoverModels (entries : List DirEntry) : List (String × List String) :=
  (sortEntries entries).filterMap fun e =>
    if e.isDirectory then
      let models := e.files.filter isRecognizedModelFile
      if models.isEmpty then none
      else some (e.entryName, sortStrs strLe models)
    else none

/-- The error raised by `load_random_models` on an empty catalog: a plain
`ValueError`, not a `ConfigurationError`. -/
inductive LoadFailure where
  | valueError (msg : String)
deriving Repr, DecidableEq

/-- The guard at the start of `load_random_models` (`loader.py`, lines
76-80): rediscover if needed, then raise `ValueError` when the catalog is
still empty. -/
def loadRandomModelsGuard (entries : List DirEntry) :
    Except LoadFailure (List (String × List String)) :=
  let catalog := discoverModels entries
  if catalog.isEmpty then .error (.valueError "No models found")
  else .ok catalog

theorem mem_insSortedEntries {a b : DirEntry} {l : List DirEntry}
    (h : b ∈ insSortedEntries a l) : b = a ∨ b ∈ l := by
  induction l with
  | nil => simp [insSortedEntries] at h; exact Or.inl h
  | cons c t ih =>
    unfold insSortedEntries at h
    split at h
    · rcases List.mem_cons.mp h with h | h
      · exact Or.inl h
      · exact Or.inr h
    · rcases List.mem_cons.mp h with h | h
      · exact Or.inr (h ▸ List.mem_cons_self c t)
      · rcases ih h with h | h
        · exact Or.inl h
        · exact Or.inr (List.mem_cons_of_mem c h)

theorem mem_sortEntries {b : DirEntry} {l : List DirEntry}
    (h : b ∈ sortEntries l) : b ∈ l := by
  induction l with
  | nil => simp [sortEntries] at h
  | cons a t ih =>
    unfold sortEntries at h
    rcases mem_insSortedEntries h with h | h
    · exact h ▸ List.mem_cons_self a t
    · exact List.mem_cons_of_mem a (ih h)

/-- **C9 (counterexample).** On a model directory whose only subdirectory
contains no recognized 3D-model file, discovery returns the empty catalog
normally — it does not fail with a `ConfigurationError` (the embedding of
`discover_models` is a total function with no error outcome); the failure is
deferred to `load_random_models`, which raises a plain `ValueError`. -/
theorem discovery_empty_catalog_cex :
    discoverModels [⟨"class1", true, ["readme.txt"]⟩] = [] ∧
    loadRandomModelsGuard [⟨"class1", true, ["readme.txt"]⟩]
      = .error (.valueError "No models found") := by
  exact ⟨by decide, rfl⟩

/-- **C9 (amended).** When every subdirectory of the model directory holds
no file with a recognized 3D-model extension, `discover_models` returns the
empty catalog and raises nothing; the failure surfaces only later, as the
`ValueError` of `load_random_models` — not as a `ConfigurationError` at
discovery time. -/
theorem discovery_defers_empty_catalog_failure (entries : List DirEntry)
    (h : ∀ e ∈ entries, e.isDirectory = true →
      ∀ f ∈ e.files, isRecognizedModelFile f = false) :
    discoverModels entries = [] ∧
    loadRandomModelsGuard entries = .error (.valueError "No models found") := by
  have hdisc : discoverModels entries = [] := by
    unfold discoverModels
    rw [List.filterMap_eq_nil_iff]
    intro e he
    have he' := mem_sortEntries he
    by_cases hd : e.isDirectory
    · have hfiles : e.files.filter isRecognizedModelFile = [] := by
        rw [List.filter_eq_nil_iff]
        intro f hf
        rw [h e he' hd f hf]
        simp
      simp [hd, hfiles]
    · simp [hd]
  refine ⟨hdisc, ?_⟩
  unfold loadRandomModelsGuard
  rw [hdisc]
  rfl

/-- Witness for the amended C9 on a directory with one non-directory entry
and one class directory holding only unrecognized files. -/
theorem discovery_defers_empty_catalog_failure_witness :
    (∀ e ∈ ([⟨"a", false, ["x.obj"]⟩, ⟨"b", true, ["y.txt", "z.md"]⟩] : List DirEntry),
      e.isDirectory = true → ∀ f ∈ e.files, isRecognizedModelFile f = false) ∧
    discoverModels [⟨"a", false, ["x.obj"]⟩, ⟨"b", true, ["y.txt", "z.md"]⟩] = [] :=
  ⟨by decide,
   (discovery_defers_empty_catalog_failure
     [⟨"a", false, ["x.obj"]⟩, ⟨"b", true, ["y.txt", "z.md"]⟩] (by decide)).1⟩


end BlenderSynth
